import Mathlib

/-!
# sdtop: process forest, journal history and UI state machine

A shallow embedding of the Go sources

* `internal/types/models.go`
* `internal/systemd/processes.go`
* `internal/systemd/logs.go`
* `internal/ui/model.go`

Go pointers to `types.Process` are addresses into an explicit heap (a list, the
address being the allocation order), Go maps are finite functions with update,
Go `int` is `Int` (wrapped to 64 bits where the source does arithmetic), and the
external collaborators (the journal cursor, the list and viewport widgets, the
styling library) are explicit values with the operations the source calls.
-/

namespace Sdtop

/-! ## internal/types/models.go -/

/-- Address of a `types.Process` object: its position in the heap. -/
abbrev Ptr := Nat

/-- Go `types.Process`; `Children []*Process` is a list of addresses. -/
structure Process where
  PID : Int
  Name : String
  Cmdline : String
  Parent : Int
  Children : List Ptr
deriving DecidableEq, Repr, Inhabited

/-- Go `types.LogEntry`; `Timestamp` is the nanosecond count handed to `time.Unix(0, _)`. -/
structure LogEntry where
  Timestamp : Int
  Message : String
  Priority : String
deriving DecidableEq, Repr, Inhabited

/-- Go `types.Service`. -/
structure Service where
  Name : String
  Description : String
  ActiveState : String
  SubState : String
  LoadState : String
  UnitFileState : String
deriving DecidableEq, Repr, Inhabited

/-- The objects allocated by one call, in allocation order. -/
abbrev Heap := List Process

/-- Value of type `[]*types.Process` together with the objects it points into. -/
structure Forest where
  heap : Heap
  roots : List Ptr
deriving DecidableEq, Repr, Inhabited

/-! ## internal/systemd/processes.go : GetServiceProcesses -/

/-- What a successful `getProcessInfo(pid)` parsed out of `/proc/<pid>/cmdline` and
`/proc/<pid>/stat` (processes.go 186-215): name, command line and parent pid. -/
structure ProcStat where
  Name : String
  Cmdline : String
  Parent : Int
deriving DecidableEq, Repr, Inhabited

/-- The object `getProcessInfo` returns on success (processes.go 217-222): the pid it was
asked for, the parsed fields and no children. -/
def mkProcess (pid : Int) (st : ProcStat) : Process :=
  { PID := pid, Name := st.Name, Cmdline := st.Cmdline, Parent := st.Parent, Children := [] }

/-- Local variables of `GetServiceProcesses` after line 32: the allocated objects,
`processMap` and `processes`. -/
structure BuildState where
  heap : Heap
  processMap : Int → Option Ptr
  processes : List Ptr

/-- State at processes.go 31-32: empty slice, empty map. -/
def BuildState.init : BuildState :=
  { heap := [], processMap := fun _ => none, processes := [] }

/-- First pass (processes.go 35-42): one `getProcessInfo` per pid; a failed read is skipped,
a successful one allocates the object, stores it in the map under its pid (overwriting) and
appends it to `processes`. `read pid` is the outcome of the read for `pid`. -/
def firstPass (read : Int → Option ProcStat) : List Int → BuildState → BuildState
  | [], s => s
  | pid :: rest, s =>
    match read pid with
    | none => firstPass read rest s
    | some st =>
      let proc : Ptr := s.heap.length
      firstPass read rest
        { heap := s.heap ++ [mkProcess pid st]
          processMap := fun k => if k = pid then some proc else s.processMap k
          processes := s.processes ++ [proc] }

/-- The assignment `parent.Children = append(parent.Children, proc)` on one object. -/
def appendChild (proc : Ptr) (parent : Process) : Process :=
  { parent with Children := parent.Children ++ [proc] }

/-- Second pass (processes.go 45-54): each object is appended either to the child list of
the object the map holds for its parent pid, or to `roots`. Every element of `processes` is
an address of the heap; for any other address the loop just goes on. -/
def secondPass (processMap : Int → Option Ptr) : List Ptr → Heap → List Ptr → Heap × List Ptr
  | [], heap, roots => (heap, roots)
  | proc :: rest, heap, roots =>
    match heap[proc]? with
    | none => secondPass processMap rest heap roots
    | some p =>
      match processMap p.Parent with
      | some parent =>
        secondPass processMap rest (heap.modify (appendChild proc) parent) roots
      | none => secondPass processMap rest heap (roots ++ [proc])

/-- Go `ProcessManager.GetServiceProcesses` (processes.go 22-62). `pids` is the value
returned by `getAllServicePIDs(serviceName)`, `read` the outcome of `getProcessInfo` for
each pid. -/
def GetServiceProcesses (pids : List Int) (read : Int → Option ProcStat) :
    Except String Forest :=
  if pids.length = 0 then
    .error "service not running or no processes found"
  else
    let s := firstPass read pids BuildState.init
    let r := secondPass s.processMap s.processes s.heap []
    if r.2.length = 0 ∧ s.processes.length > 0 then
      .ok { heap := r.1, roots := s.processes.take 1 }
    else
      .ok { heap := r.1, roots := r.2 }

/-- Nodes met when following child pointers from `p`, parent before children, children in
list order; `fuel` bounds the depth followed. -/
def walk (heap : Heap) : Nat → Ptr → List Ptr
  | 0, _ => []
  | fuel + 1, p =>
    match heap[p]? with
    | none => []
    | some pr => p :: pr.Children.flatMap (walk heap fuel)

/-- Every node occurrence of the forest: the roots and all their descendants. The depth
followed is the number of allocated objects, which a tree-shaped forest cannot exceed. -/
def Forest.nodes (f : Forest) : List Ptr :=
  f.roots.flatMap (walk f.heap f.heap.length)

/-- Pid stored at an address (0 for a dangling address). -/
def pidAt (heap : Heap) (p : Ptr) : Int :=
  match heap[p]? with
  | some pr => pr.PID
  | none => 0

/-- Pids of all node occurrences of the forest. -/
def Forest.pids (f : Forest) : List Int :=
  f.nodes.map (pidAt f.heap)

/-- Outline of the subtree at `p`: one `(depth, pid)` line per node, the layout
`renderProcess` prints. -/
def outlineFrom (heap : Heap) : Nat → Nat → Ptr → List (Nat × Int)
  | 0, _, _ => []
  | fuel + 1, depth, p =>
    match heap[p]? with
    | none => []
    | some pr => (depth, pr.PID) :: pr.Children.flatMap (outlineFrom heap fuel (depth + 1))

/-- Outline of the whole forest. -/
def Forest.outline (f : Forest) : List (Nat × Int) :=
  f.roots.flatMap (outlineFrom f.heap f.heap.length 0)

/-- Records allocated by the first pass, in discovery order: one per pid whose read
succeeded. -/
def records (read : Int → Option ProcStat) (pids : List Int) : List Process :=
  pids.filterMap (fun pid => (read pid).map (mkProcess pid))

/-- Address the map holds for the parent pid of the object at `p`, if any. -/
def parentOf (processMap : Int → Option Ptr) (heap : Heap) (p : Ptr) : Option Ptr :=
  match heap[p]? with
  | none => none
  | some pr => processMap pr.Parent

/-- Whether the second pass appends the object at `p` to `roots`. -/
def isRootPtr (processMap : Int → Option Ptr) (heap : Heap) (p : Ptr) : Bool :=
  match heap[p]? with
  | none => false
  | some pr => (processMap pr.Parent).isNone

/-- The map holds exactly the addresses of the heap, each under its pid. -/
def MapOK (processMap : Int → Option Ptr) (heap : Heap) : Prop :=
  ∀ k i, processMap k = some i ↔ heap[i]?.map (·.PID) = some k

/-- Object `pr` after the second pass has run over `ps`: the children appended to it are
the members of `ps` whose parent pid the map sends to address `i`. -/
def withChildren (pm : Int → Option Ptr) (heap : Heap) (ps : List Ptr) (i : Ptr)
    (pr : Process) : Process :=
  { pr with Children := pr.Children ++ ps.filter (fun p => decide (parentOf pm heap p = some i)) }

/-- The `d`-th ancestor of `k` under a partial parent function. -/
def anc (par : Nat → Option Nat) : Nat → Nat → Option Nat
  | 0, k => some k
  | d + 1, k => (anc par d k).bind par

/-- Record `i` is the parent of record `j`: both exist and the parent pid of `j` is the pid
of `i`. -/
def isParentOf (recs : List Process) (j i : Nat) : Bool :=
  match recs[j]?, recs[i]? with
  | some rj, some ri => decide (rj.Parent = ri.PID)
  | _, _ => false

/-- No record is its own ancestor under the parent relation among the records. -/
def Acyclic (recs : List Process) : Prop :=
  ∀ i, ¬ Relation.TransGen (fun j i => isParentOf recs j i = true) i i

/-- Roots appended by the root-finding pass of `GetServiceProcesses` (the value of `roots`
at processes.go 55). -/
def rootsFound (pids : List Int) (read : Int → Option ProcStat) : List Ptr :=
  let s := firstPass read pids BuildState.init
  (secondPass s.processMap s.processes s.heap []).2

/-- Reference forest, from the words of the specification: the roots are the records whose
parent pid is not the pid of any record, in discovery order; the children of a record are
the records whose parent pid is its pid, in discovery order. -/
def referenceForest (recs : List Process) : Forest :=
  { heap := recs.map (fun r =>
      { r with Children := (List.range recs.length).filter (fun j =>
          decide ((recs[j]?).map (·.Parent) = some r.PID)) })
    roots := (List.range recs.length).filter (fun j =>
      match recs[j]? with
      | some rj => decide (rj.Parent ∉ recs.map (·.PID))
      | none => false) }

/-- Reads of the scenario: 100 (parent 1), 101 (parent 100), 102 (parent 999). -/
def scenarioRead : Int → Option ProcStat := fun pid =>
  if pid = 100 then some { Name := "main", Cmdline := "/usr/bin/main", Parent := 1 }
  else if pid = 101 then some { Name := "worker", Cmdline := "/usr/bin/worker", Parent := 100 }
  else if pid = 102 then some { Name := "helper", Cmdline := "/usr/bin/helper", Parent := 999 }
  else none

/-- Reads in which pid 1 is readable (parent 0) and every other pid is not. -/
def onlyFirstRead : Int → Option ProcStat := fun pid =>
  if pid = 1 then some { Name := "a", Cmdline := "a", Parent := 0 } else none

/-- Reads in which nothing is readable. -/
def noRead : Int → Option ProcStat := fun _ => none

/-- Reads of two records that name each other as parent. -/
def cycleRead : Int → Option ProcStat := fun pid =>
  if pid = 1 then some { Name := "a", Cmdline := "a", Parent := 2 }
  else if pid = 2 then some { Name := "b", Cmdline := "b", Parent := 1 }
  else none

/-- Forest of the scenario: 100 with child 101, and 102. -/
def scenarioForest : Forest :=
  { heap := [ { PID := 100, Name := "main", Cmdline := "/usr/bin/main", Parent := 1,
                Children := [1] },
              { PID := 101, Name := "worker", Cmdline := "/usr/bin/worker", Parent := 100,
                Children := [] },
              { PID := 102, Name := "helper", Cmdline := "/usr/bin/helper", Parent := 999,
                Children := [] } ]
    roots := [0, 2] }

deriving instance DecidableEq for Except

/-! ## internal/systemd/logs.go : GetRecentLogs -/

/-- Value of a decimal digit, if the character is one. -/
def digitVal (c : Char) : Option Nat :=
  if '0' ≤ c ∧ c ≤ '9' then some (c.toNat - '0'.toNat) else none

/-- Decimal value of a digit string, most significant digit first; fails on a non-digit. -/
def parseDigits : List Char → Nat → Option Nat
  | [], acc => some acc
  | c :: cs, acc =>
    match digitVal c with
    | none => none
    | some d => parseDigits cs (acc * 10 + d)

/-- Go `strconv.Atoi` with a 64-bit `int`: an optional sign, then one or more decimal
digits and nothing else; the value has to fit in `int64`. `none` is a non-nil `err`. -/
def Atoi (s : String) : Option Int :=
  match s.toList with
  | [] => none
  | c :: cs =>
    let neg : Bool := c = '-'
    let ds : List Char := if c = '-' ∨ c = '+' then cs else c :: cs
    if ds = [] then none
    else
      match parseDigits ds 0 with
      | none => none
      | some n =>
        let v : Int := if neg then -(n : Int) else (n : Int)
        if -(2 ^ 63 : Int) ≤ v ∧ v < (2 ^ 63 : Int) then some v else none

/-- Severity of a raw priority string (logs.go 150-161). -/
def severity (priorityStr : String) : String :=
  match Atoi priorityStr with
  | some p => if p ≤ 3 then "error" else if p ≤ 4 then "warn" else "info"
  | none => "info"

/-- Go conversion to `int64` with wrap-around. -/
def toInt64 (n : Int) : Int :=
  (n + 2 ^ 63) % 2 ^ 64 - 2 ^ 63

/-- One journal entry as `GetEntry` delivers it: the field map, the realtime timestamp
(`uint64` microseconds), and whether `GetEntry` succeeds on it. -/
structure JournalEntry where
  Fields : List (String × String)
  RealtimeTimestamp : Nat
  readable : Bool
deriving DecidableEq, Repr, Inhabited

/-- Go map index `entry.Fields[key]`: the empty string for a missing key. -/
def JournalEntry.field (e : JournalEntry) (key : String) : String :=
  match e.Fields.lookup key with
  | some v => v
  | none => ""

/-- Read position of the journal: before the first entry, on entry `i` of the entries the
matches select, or behind the last one. -/
inductive Cursor where
  | head
  | pos (i : Nat)
  | tail
deriving DecidableEq, Repr, Inhabited

/-- Modelled from the spec: the raw log source `sdjournal.Journal` (an external library), as
the positional cursor of sections 3 and 6: `entries` is the log, oldest first; `matchList` the
filter; `cursor` the position. Seeking to the newest end makes no entry current; a step back
from there makes the newest entry current; a step reports whether there was an entry to move
to and leaves the position alone when there was none. `addMatchErr`, `seekTailErr` and
`navErrs` fix which calls come back with an error: each `Previous`/`Next` call consumes the
first flag of `navErrs` (no flag left: no error). -/
structure Journal where
  entries : List JournalEntry
  matchList : List String
  cursor : Cursor
  addMatchErr : Bool
  seekTailErr : Bool
  navErrs : List Bool
deriving DecidableEq, Repr, Inhabited

/-- An entry satisfies the match `"FIELD=value"` when it carries that field with that
value. -/
def JournalEntry.hasMatch (e : JournalEntry) (m : String) : Bool :=
  e.Fields.any (fun kv => kv.1 ++ "=" ++ kv.2 == m)

/-- Entries the current matches select, oldest first (no match selects everything). -/
def Journal.visible (j : Journal) : List JournalEntry :=
  if j.matchList = [] then j.entries
  else j.entries.filter (fun e => j.matchList.any (fun m => e.hasMatch m))

/-- `journal.FlushMatches()`. -/
def Journal.FlushMatches (j : Journal) : Journal :=
  { j with matchList := [] }

/-- `journal.AddMatch(m)`. -/
def Journal.AddMatch (j : Journal) (m : String) : Except String Journal :=
  if j.addMatchErr then .error "add match"
  else .ok { j with matchList := j.matchList ++ [m] }

/-- `journal.SeekTail()`. -/
def Journal.SeekTail (j : Journal) : Except String Journal :=
  if j.seekTailErr then .error "seek tail"
  else .ok { j with cursor := Cursor.tail }

/-- `journal.Previous()`: the journal afterwards and `(n, err)`. -/
def Journal.Previous (j : Journal) : Journal × Except String Nat :=
  let j1 := { j with navErrs := j.navErrs.tail }
  if j.navErrs.headD false then (j1, .error "previous")
  else
    match j.cursor with
    | Cursor.head => (j1, .ok 0)
    | Cursor.tail =>
      if j.visible.length = 0 then (j1, .ok 0)
      else ({ j1 with cursor := Cursor.pos (j.visible.length - 1) }, .ok 1)
    | Cursor.pos i =>
      if i = 0 then (j1, .ok 0)
      else ({ j1 with cursor := Cursor.pos (i - 1) }, .ok 1)

/-- `journal.Next()`: the journal afterwards and `(n, err)`. -/
def Journal.Next (j : Journal) : Journal × Except String Nat :=
  let j1 := { j with navErrs := j.navErrs.tail }
  if j.navErrs.headD false then (j1, .error "next")
  else
    match j.cursor with
    | Cursor.head =>
      if j.visible.length = 0 then (j1, .ok 0)
      else ({ j1 with cursor := Cursor.pos 0 }, .ok 1)
    | Cursor.tail => (j1, .ok 0)
    | Cursor.pos i =>
      if i + 1 < j.visible.length then ({ j1 with cursor := Cursor.pos (i + 1) }, .ok 1)
      else (j1, .ok 0)

/-- `journal.GetEntry()`: the entry at the read position. -/
def Journal.GetEntry (j : Journal) : Except String JournalEntry :=
  match j.cursor with
  | Cursor.pos i =>
    match j.visible[i]? with
    | some e => if e.readable then .ok e else .error "get entry"
    | none => .error "get entry"
  | _ => .error "get entry"

/-- The `types.LogEntry` built from a journal entry (logs.go 146-167). -/
def toLogEntry (entry : JournalEntry) : LogEntry :=
  { Timestamp := toInt64 (toInt64 entry.RealtimeTimestamp * 1000)
    Message := entry.field "MESSAGE"
    Priority := severity (entry.field "PRIORITY") }

/-- Loop of logs.go 126-130, `k` iterations left: step back until a step errs or finds no
entry. -/
def seekBack : Nat → Journal → Journal
  | 0, j => j
  | k + 1, j =>
    match j.Previous with
    | (j1, .error _) => j1
    | (j1, .ok n) => if n = 0 then j1 else seekBack k j1

/-- Loop of logs.go 135-168, `k` iterations left: step forward, stop when the step errs or
finds no entry; skip the entry when `GetEntry` fails, append it otherwise. -/
def readForward : Nat → Journal → List LogEntry → Journal × List LogEntry
  | 0, j, logs => (j, logs)
  | k + 1, j, logs =>
    match j.Next with
    | (j1, .error _) => (j1, logs)
    | (j1, .ok n) =>
      if n = 0 then (j1, logs)
      else
        match j1.GetEntry with
        | .error _ => readForward k j1 logs
        | .ok entry => readForward k j1 (logs ++ [toLogEntry entry])

/-- Go `LogReader.GetRecentLogs` (logs.go 111-171) on the journal `j`: the returned
`(logs, err)` and the journal afterwards. -/
def GetRecentLogs (j : Journal) (serviceName : String) (count : Int) :
    Except String (List LogEntry) × Journal :=
  let j0 := j.FlushMatches
  match j0.AddMatch ("_SYSTEMD_UNIT=" ++ serviceName) with
  | .error e => (.error ("failed to add match: " ++ e), j0)
  | .ok j1 =>
    match j1.SeekTail with
    | .error e => (.error ("failed to seek tail: " ++ e), j1)
    | .ok j2 =>
      let j3 := seekBack count.toNat j2
      let r := readForward count.toNat j3 []
      (.ok r.2, r.1)

/-- Entries that follow the read position among `vis`. -/
def remaining (vis : List JournalEntry) : Cursor → List JournalEntry
  | Cursor.head => vis
  | Cursor.pos i => vis.drop (i + 1)
  | Cursor.tail => []

/-- Entries of the journal that belong to a service, oldest first. -/
def Journal.matching (j : Journal) (serviceName : String) : List JournalEntry :=
  j.entries.filter (fun e => e.hasMatch ("_SYSTEMD_UNIT=" ++ serviceName))

/-- A journal entry of a unit with a message, a priority and a timestamp. -/
def mkEntry (unit message priority : String) (ts : Nat) : JournalEntry :=
  { Fields := [("_SYSTEMD_UNIT", unit), ("MESSAGE", message), ("PRIORITY", priority)]
    RealtimeTimestamp := ts
    readable := true }

/-- A journal without faults over the given entries, freshly opened. -/
def mkJournal (entries : List JournalEntry) : Journal :=
  { entries := entries, matchList := [], cursor := Cursor.head,
    addMatchErr := false, seekTailErr := false, navErrs := [] }

/-- Journal of the scenario: exactly three lines of `web.service`, priorities 3, 4, 6, and
one line of another unit. -/
def scenarioJournal : Journal :=
  mkJournal
    [ mkEntry "web.service" "disk failure" "3" 1000000,
      mkEntry "db.service" "checkpoint" "6" 1500000,
      mkEntry "web.service" "slow request" "4" 2000000,
      mkEntry "web.service" "started" "6" 3000000 ]

/-! ## internal/ui/model.go -/

/-- What the right pane shows: the value the source hands to `logViewport.SetContent`, with
the styling of the external presentation layer left out. -/
inductive Screen where
  /-- A viewport whose content was never set. -/
  | blank
  /-- `renderEmptyState` for a viewport of the given width and height. -/
  | emptyState (width height : Int)
  /-- `renderNoLogsState` for a service. -/
  | noLogs (service : String) (width height : Int)
  /-- The lines `formatLogs` writes, one per entry of the log buffer. -/
  | logLines (logs : List LogEntry)
  /-- `renderNoProcessesState` for a service. -/
  | noProcesses (service : String) (width height : Int)
  /-- The tree `formatProcessTree` writes: the header with the service name and
  `renderProcess` for each root of a forest on which its recursion ends. -/
  | processTree (service : String) (processes : Forest)
deriving DecidableEq, Repr, Inhabited

/-- Scroll position of the viewport after `GotoTop` / `GotoBottom`. -/
inductive Scroll where
  | top
  | bottom
deriving DecidableEq, Repr, Inhabited

/-- The `viewport.Model` fields the source touches. -/
structure Viewport where
  Width : Int
  Height : Int
  YPosition : Int
  content : Screen
  scroll : Scroll
deriving DecidableEq, Repr, Inhabited

/-- `viewport.New(width, height)`. -/
def Viewport.New (width height : Int) : Viewport :=
  { Width := width, Height := height, YPosition := 0, content := Screen.blank,
    scroll := Scroll.top }

/-- The `list.Model` state the source touches: the items, the cursor and the size. -/
structure ListModel where
  items : List Service
  index : Nat
  width : Int
  height : Int
deriving DecidableEq, Repr, Inhabited

/-- `serviceList.SelectedItem()`: the item under the cursor, if any. -/
def ListModel.SelectedItem (l : ListModel) : Option Service :=
  l.items[l.index]?

/-- Go `ui.Model`. `manager`, `logReader` and `processManager` are handles to the outside
world and carry no state of the model. `logCancel` holds the identity of the context whose
cancel function is stored (`none` is `nil`); `cancelCalls` records the cancel functions
invoked so far and `contexts` counts the contexts created so far. -/
structure Model where
  serviceList : ListModel
  logViewport : Viewport
  services : List Service
  allServices : List Service
  currentService : String
  logs : List LogEntry
  processes : Forest
  logCancel : Option Nat
  statusMsg : String
  errMsg : String
  width : Int
  height : Int
  ready : Bool
  filterMode : String
  showProcessTree : Bool
  cancelCalls : List Nat
  contexts : Nat
deriving DecidableEq, Repr, Inhabited

/-- Messages `Update` receives. -/
inductive Msg where
  /-- `tea.KeyMsg`, with the value of `msg.String()`. -/
  | key (s : String)
  | windowSize (Width Height : Int)
  /-- `servicesLoadedMsg`; `items` wraps the same services one by one. -/
  | servicesLoaded (services : List Service)
  /-- `systemd.ErrorMsg`. -/
  | error (text : String)
  /-- `statusMsgType`. -/
  | status (text : String)
  | clearStatus
  | tick
  | logsLoaded (logs : List LogEntry)
  | processesLoaded (processes : Forest)
  /-- Any message of another type. -/
  | other
deriving DecidableEq, Repr, Inhabited

/-- Commands `Update` returns: which asynchronous request is issued. -/
inductive Cmd where
  /-- The `nil` command. -/
  | none
  | quit
  | refreshLogs
  | loadProcessTree
  | restartService
  | stopService
  | startService
  | enableService
  | disableService
  | applyFilter
  /-- `tickCmd()`: the next `tickMsg` in 500 ms. -/
  | tick
  /-- The 2 s timer that delivers `clearStatusMsg`. -/
  | clearStatusLater
  /-- The command a widget's own `Update` returned. -/
  | widget
  | batch (cmds : List Cmd)
deriving Repr, Inhabited

/-- The `Update` functions of the external list and viewport widgets. -/
structure Widgets where
  listUpdate : ListModel → Msg → ListModel
  viewportUpdate : Viewport → Msg → Viewport

/-- Go `Model.formatLogs` (model.go 498-534). -/
def formatLogs (m : Model) : Screen :=
  if m.logs.length = 0 then
    if m.currentService = "" then
      Screen.emptyState m.logViewport.Width m.logViewport.Height
    else
      Screen.noLogs m.currentService m.logViewport.Width m.logViewport.Height
  else
    Screen.logLines m.logs

/-- The loop `for _, child := range ...` around `renderProcess`: the objects printed for
each pointer in turn; it does not end when one of the calls does not. -/
def renderEach (render : Ptr → Option (List Ptr)) : List Ptr → Option (List Ptr)
  | [] => some []
  | proc :: rest =>
    match render proc with
    | none => none
    | some printed =>
      match renderEach render rest with
      | none => none
      | some more => some (printed ++ more)

/-- Go `Model.renderProcess` (model.go 563-601), as far as its recursion goes: the objects
it prints, the process itself and then each child in turn, with no guard against a pointer
cycle. `depth` bounds the nesting of the calls; `none` is a call that does not return within
it. -/
def renderProcess (heap : Heap) : Nat → Ptr → Option (List Ptr)
  | 0, _ => none
  | depth + 1, proc =>
    match heap[proc]? with
    | none => none
    | some p =>
      match renderEach (renderProcess heap depth) p.Children with
      | none => none
      | some printed => some (proc :: printed)

/-- The loop over the roots in `formatProcessTree` (model.go 550-552). The nesting allowed
is the number of objects: a chain of calls nested deeper than that visits some object twice,
so it follows a pointer cycle and the recursion of the code never ends. -/
def renderForest (processes : Forest) : Option (List Ptr) :=
  renderEach (renderProcess processes.heap processes.heap.length) processes.roots

/-- Go `Model.formatProcessTree` (model.go 537-560); `none` when the recursion of
`renderProcess` does not end, so that nothing is returned. -/
def formatProcessTree (m : Model) : Option Screen :=
  if m.processes.roots.length = 0 then
    some (Screen.noProcesses m.currentService m.logViewport.Width m.logViewport.Height)
  else
    match renderForest m.processes with
    | none => none
    | some _ => some (Screen.processTree m.currentService m.processes)

/-- `if m.logCancel != nil { m.logCancel() }`. -/
def callLogCancel (m : Model) : Model :=
  match m.logCancel with
  | some c => { m with cancelCalls := m.cancelCalls ++ [c] }
  | none => m

/-- Go `Model.selectService` (model.go 352-366). -/
def selectService (m : Model) (serviceName : String) : Model × Cmd :=
  let m1 := callLogCancel m
  let m2 := { m1 with currentService := serviceName, logs := [] }
  let m3 := { m2 with logCancel := some m2.contexts, contexts := m2.contexts + 1 }
  (m3, Cmd.refreshLogs)

/-- Go `Model.cycleFilter` (model.go 454-464). -/
def cycleFilter (m : Model) : Model × Cmd :=
  let m1 :=
    match m.filterMode with
    | "all" => { m with filterMode := "running" }
    | "running" => { m with filterMode := "failed" }
    | "failed" => { m with filterMode := "all" }
    | _ => m
  (m1, Cmd.applyFilter)

/-- The tail of `Update` (model.go 339-348): the message goes to both widgets. -/
def updateWidgets (w : Widgets) (m : Model) (msg : Msg) : Model × Cmd :=
  ({ m with serviceList := w.listUpdate m.serviceList msg
            logViewport := w.viewportUpdate m.logViewport msg },
   Cmd.batch [Cmd.widget, Cmd.widget])

/-- The key branch of `Update` (model.go 183-272). -/
def updateKey (w : Widgets) (m : Model) (k : String) : Model × Cmd :=
  match k with
  | "q" | "ctrl+c" => (callLogCancel m, Cmd.quit)
  | "enter" =>
    match m.serviceList.SelectedItem with
    | some item => selectService m item.Name
    | none => updateWidgets w m (Msg.key k)
  | "r" =>
    if m.currentService ≠ "" then (m, Cmd.restartService) else updateWidgets w m (Msg.key k)
  | "s" =>
    if m.currentService ≠ "" then (m, Cmd.stopService) else updateWidgets w m (Msg.key k)
  | "t" =>
    if m.currentService ≠ "" then (m, Cmd.startService) else updateWidgets w m (Msg.key k)
  | "e" =>
    if m.currentService ≠ "" then (m, Cmd.enableService) else updateWidgets w m (Msg.key k)
  | "d" =>
    if m.currentService ≠ "" then (m, Cmd.disableService) else updateWidgets w m (Msg.key k)
  | "f" => cycleFilter m
  | "1" => ({ m with filterMode := "all" }, Cmd.applyFilter)
  | "2" => ({ m with filterMode := "running" }, Cmd.applyFilter)
  | "3" => ({ m with filterMode := "failed" }, Cmd.applyFilter)
  | "p" =>
    if m.currentService ≠ "" then
      let m1 := { m with showProcessTree := !m.showProcessTree }
      if m1.showProcessTree then (m1, Cmd.loadProcessTree) else (m1, Cmd.none)
    else (m, Cmd.none)
  | "l" =>
    if m.showProcessTree then ({ m with showProcessTree := false }, Cmd.none)
    else (m, Cmd.none)
  | "up" | "k" | "down" | "j" =>
    ({ m with serviceList := w.listUpdate m.serviceList (Msg.key k) }, Cmd.widget)
  | _ => updateWidgets w m (Msg.key k)

/-- Go `Model.Update` (model.go 179-349): the model afterwards and the command returned;
`none` when the call does not return (the rendering of a forest with a pointer cycle). -/
def Update (w : Widgets) (m : Model) (msg : Msg) : Option (Model × Cmd) :=
  match msg with
  | Msg.key k => some (updateKey w m k)
  | Msg.windowSize Width Height =>
    let m1 := { m with width := Width, height := Height }
    let leftWidth := Int.tdiv (toInt64 (Width * 30)) 100
    let rightWidth := toInt64 (toInt64 (Width - leftWidth) - 2)
    let m2 := { m1 with serviceList :=
      { m1.serviceList with width := leftWidth, height := toInt64 (Height - 4) } }
    if !m2.ready then
      some ({ m2 with logViewport := Viewport.New rightWidth (toInt64 (Height - 4)),
                      ready := true },
       Cmd.none)
    else
      some ({ m2 with logViewport :=
          { m2.logViewport with Width := rightWidth, Height := toInt64 (Height - 4) } },
       Cmd.none)
  | Msg.servicesLoaded services =>
    some ({ m with services := services, allServices := services
                   serviceList := { m.serviceList with items := services } }, Cmd.none)
  | Msg.error text => some ({ m with errMsg := text }, Cmd.none)
  | Msg.status text => some ({ m with statusMsg := text }, Cmd.clearStatusLater)
  | Msg.clearStatus => some ({ m with statusMsg := "" }, Cmd.none)
  | Msg.tick =>
    if m.currentService ≠ "" ∧ !m.showProcessTree then
      some (m, Cmd.batch [Cmd.tick, Cmd.refreshLogs])
    else some (m, Cmd.tick)
  | Msg.logsLoaded logs =>
    if !m.showProcessTree then
      let m1 := { m with logs := logs }
      some ({ m1 with logViewport :=
          { m1.logViewport with content := formatLogs m1, scroll := Scroll.bottom } },
       Cmd.none)
    else some (m, Cmd.none)
  | Msg.processesLoaded processes =>
    let m1 := { m with processes := processes }
    match formatProcessTree m1 with
    | none => none
    | some screen =>
      some ({ m1 with logViewport :=
          { m1.logViewport with content := screen, scroll := Scroll.top } },
       Cmd.none)
  | Msg.other => some (updateWidgets w m Msg.other)

/-- The model after a call of `Update` that returns; the model as it was when the call does
not return. -/
def stateAfter (w : Widgets) (m : Model) (msg : Msg) : Model :=
  match Update w m msg with
  | some r => r.1
  | none => m

/-- The outside world the commands run against: the journal, and for each service name the
membership pid list `getAllServicePIDs` finds and the outcome of the per-pid reads. -/
structure World where
  journal : Journal
  servicePids : String → List Int
  procRead : Int → Option ProcStat

/-- The message the command of `refreshLogs` produces (model.go 369-377) when it runs with
the model in state `m`. -/
def refreshLogsMsg (world : World) (m : Model) : Msg :=
  match (GetRecentLogs world.journal m.currentService 100).1 with
  | .error e => Msg.error ("Failed to read logs: " ++ e)
  | .ok logs => Msg.logsLoaded logs

/-- The message the command of `loadProcessTree` produces (model.go 393-401) when it runs
with the model in state `m`. -/
def loadProcessTreeMsg (world : World) (m : Model) : Msg :=
  match GetServiceProcesses (world.servicePids m.currentService) world.procRead with
  | .error e => Msg.error ("Failed to load processes: " ++ e)
  | .ok processes => Msg.processesLoaded processes

/-- Go `NewModel` (model.go 117-140): the initial state. -/
def NewModel : Model :=
  { serviceList := { items := [], index := 0, width := 0, height := 0 }
    logViewport := { Width := 0, Height := 0, YPosition := 0, content := Screen.blank,
                     scroll := Scroll.top }
    services := []
    allServices := []
    currentService := ""
    logs := []
    processes := { heap := [], roots := [] }
    logCancel := none
    statusMsg := ""
    errMsg := ""
    width := 0
    height := 0
    ready := false
    filterMode := "all"
    showProcessTree := false
    cancelCalls := []
    contexts := 0 }

/-- Widgets that ignore every message. -/
def idleWidgets : Widgets :=
  { listUpdate := fun l _ => l, viewportUpdate := fun v _ => v }

/-- World of the scenarios: the scenario journal, and the three processes of the forest
scenario as members of `web.service`. -/
def scenarioWorld : World :=
  { journal := scenarioJournal
    servicePids := fun s => if s = "web.service" then [100, 101, 102] else []
    procRead := scenarioRead }

/-- The two services shown in the list of the scenarios. -/
def scenarioServices : List Service :=
  [ { Name := "web.service", Description := "web", ActiveState := "active",
      SubState := "running", LoadState := "loaded", UnitFileState := "" },
    { Name := "db.service", Description := "db", ActiveState := "active",
      SubState := "running", LoadState := "loaded", UnitFileState := "" } ]

/-- State after start-up, a window size and the service listing. -/
def readyModel : Model :=
  stateAfter idleWidgets (stateAfter idleWidgets NewModel (Msg.windowSize 100 40))
    (Msg.servicesLoaded scenarioServices)

/-- State in which `web.service` (service A) was selected with the enter key. -/
def modelA : Model :=
  stateAfter idleWidgets readyModel (Msg.key "enter")

/-- Result of the history load requested for service A. -/
def logsMsgA : Msg :=
  refreshLogsMsg scenarioWorld modelA

/-- State in which the forest build for service A was requested with key `p`. -/
def modelATree : Model :=
  stateAfter idleWidgets modelA (Msg.key "p")

/-- Result of the forest build requested for service A. -/
def processesMsgA : Msg :=
  loadProcessTreeMsg scenarioWorld modelATree

/-- State in process-tree view of service A, the forest shown. -/
def modelATreeShown : Model :=
  stateAfter idleWidgets modelATree processesMsgA

/-- The list cursor moved to the second service. -/
def cursorOnSecond (m : Model) : Model :=
  { m with serviceList := { m.serviceList with index := 1 } }

/-- State in which, from log view of A, `db.service` (service B) was selected with the
enter key while the results for A were still pending. -/
def modelB : Model :=
  stateAfter idleWidgets (cursorOnSecond modelA) (Msg.key "enter")

/-- The two entries the history load for service A returns. -/
def logsOfA : List LogEntry :=
  [ { Timestamp := 2000000000, Message := "slow request", Priority := "warn" },
    { Timestamp := 3000000000, Message := "started", Priority := "info" } ]

/-- The forest `GetServiceProcesses` returns for two records that name each other as parent:
the first record, whose child is the second, whose child is the first. -/
def cyclicForest : Forest :=
  { heap := [ { PID := 1, Name := "a", Cmdline := "a", Parent := 2, Children := [1] },
              { PID := 2, Name := "b", Cmdline := "b", Parent := 1, Children := [0] } ]
    roots := [0] }

/-! ## internal/systemd/processes.go : getAllServicePIDs, getProcessInfo -/

/-- One entry of `os.ReadDir("/proc")`. -/
structure DirEntry where
  Name : String
  IsDir : Bool
deriving DecidableEq, Repr, Inhabited

/-- The process table as the source reads it: the listing of `/proc` (`none`: `ReadDir`
failed) and, per pid, the content of `/proc/<pid>/cgroup`, `/proc/<pid>/cmdline` and
`/proc/<pid>/stat` (`none`: `ReadFile` failed). -/
structure ProcFS where
  readDir : Option (List DirEntry)
  cgroup : Int → Option String
  cmdline : Int → Option String
  stat : Int → Option String

/-- Go `strings.Contains`. -/
def Contains (s substr : String) : Bool :=
  s.toList.tails.any (fun t => substr.toList.isPrefixOf t)

/-- Loop body of `getAllServicePIDs` (processes.go 74-96) over the remaining entries, with
the pids collected so far. -/
def collectPIDs (fs : ProcFS) (serviceName cgroupPath : String) :
    List DirEntry → List Int → List Int
  | [], pids => pids
  | entry :: rest, pids =>
    if !entry.IsDir then collectPIDs fs serviceName cgroupPath rest pids
    else
      match Atoi entry.Name with
      | none => collectPIDs fs serviceName cgroupPath rest pids
      | some pid =>
        match fs.cgroup pid with
        | none => collectPIDs fs serviceName cgroupPath rest pids
        | some cgroupContent =>
          if Contains cgroupContent cgroupPath || Contains cgroupContent serviceName then
            collectPIDs fs serviceName cgroupPath rest (pids ++ [pid])
          else collectPIDs fs serviceName cgroupPath rest pids

/-- Go `ProcessManager.getAllServicePIDs` (processes.go 65-99). -/
def getAllServicePIDs (fs : ProcFS) (serviceName : String) : List Int :=
  let cgroupPath := "system.slice/" ++ serviceName
  match fs.readDir with
  | none => []
  | some procDir => collectPIDs fs serviceName cgroupPath procDir []

/-- Membership of one entry, from the words of the specification: the entry is a directory
with a numeric name, its control-group content is readable and contains the fragment
`system.slice/<service>` or the bare service name. -/
def memberPid (fs : ProcFS) (serviceName : String) (entry : DirEntry) : Option Int :=
  if entry.IsDir then
    match Atoi entry.Name with
    | some pid =>
      match fs.cgroup pid with
      | some content =>
        if Contains content ("system.slice/" ++ serviceName) || Contains content serviceName
        then some pid else none
      | none => none
    | none => none
  else none

/-- Reference result of `listServicePids`, from the words of the specification: the members
among the entries of the process table, in enumeration order. -/
def referencePIDs (fs : ProcFS) (serviceName : String) : List Int :=
  match fs.readDir with
  | some entries => entries.filterMap (memberPid fs serviceName)
  | none => []

/-- Go `unicode.IsSpace`. -/
def isSpace (c : Char) : Bool :=
  c = '\t' || c = '\n' || c = '\x0b' || c = '\x0c' || c = '\r' || c = ' ' ||
  c.toNat = 0x85 || c.toNat = 0xA0 || c.toNat = 0x1680 ||
  (0x2000 ≤ c.toNat && c.toNat ≤ 0x200a) || c.toNat = 0x2028 || c.toNat = 0x2029 ||
  c.toNat = 0x202f || c.toNat = 0x205f || c.toNat = 0x3000

/-- Go `strings.TrimSpace`. -/
def TrimSpace (s : String) : String :=
  String.mk ((s.toList.dropWhile isSpace).reverse.dropWhile isSpace).reverse

/-- Go `strings.ReplaceAll(s, "\x00", " ")`. -/
def replaceNul (s : String) : String :=
  String.mk (s.toList.map (fun c => if c = '\x00' then ' ' else c))

/-- Go `strings.Index(s, c)` for a one-character pattern: the position of the first
occurrence, -1 when there is none. Positions count characters; the characters searched for
are ASCII, so a slice taken at these positions is the slice Go takes at the byte positions. -/
def Index (s : List Char) (c : Char) : Int :=
  match s.indexOf? c with
  | some i => (i : Int)
  | none => -1

/-- Go `strings.LastIndex(s, c)` for a one-character pattern. -/
def LastIndex (s : List Char) (c : Char) : Int :=
  match s.reverse.indexOf? c with
  | some i => (s.length : Int) - 1 - (i : Int)
  | none => -1

/-- Fields of `strings.Fields` over the remaining characters; `cur` is the field being read,
reversed. -/
def fieldsAux : List Char → List Char → List String
  | [], cur => if cur = [] then [] else [String.mk cur.reverse]
  | c :: cs, cur =>
    if isSpace c then
      if cur = [] then fieldsAux cs [] else String.mk cur.reverse :: fieldsAux cs []
    else fieldsAux cs (c :: cur)

/-- Go `strings.Fields`. -/
def Fields (s : List Char) : List String :=
  fieldsAux s []

/-- First value `strconv.Atoi` returns, whether or not it also returns an error: the parsed
number, 0 on a syntax error, the nearest `int64` bound on a range error. -/
def atoiValue (s : String) : Int :=
  match s.toList with
  | [] => 0
  | c :: cs =>
    let neg : Bool := c = '-'
    let ds : List Char := if c = '-' ∨ c = '+' then cs else c :: cs
    if ds = [] then 0
    else
      match parseDigits ds 0 with
      | none => 0
      | some n =>
        let v : Int := if neg then -(n : Int) else (n : Int)
        if v < -(2 ^ 63 : Int) then -(2 ^ 63 : Int)
        else if (2 ^ 63 : Int) ≤ v then (2 ^ 63 : Int) - 1
        else v

/-- How a Go call ends: with a value, with a non-nil `error`, or in a runtime panic. -/
inductive Outcome (α : Type) where
  | ok (value : α)
  | err (text : String)
  | panic (text : String)
deriving DecidableEq, Repr

/-- The stat-line parse of `getProcessInfo` (processes.go 196-211): the name and the parent
pid, or the runtime panic of the slice expression `statStr[startIdx+1 : endIdx]` when its
low bound exceeds its high bound. -/
def parseStat (statStr : String) : Outcome (String × Int) :=
  let chars := statStr.toList
  let startIdx := Index chars '('
  let endIdx := LastIndex chars ')'
  if startIdx ≠ -1 ∧ endIdx ≠ -1 then
    if startIdx + 1 > endIdx then Outcome.panic "slice bounds out of range"
    else
      let name := String.mk ((chars.drop (startIdx + 1).toNat).take (endIdx - (startIdx + 1)).toNat)
      let fields := Fields (chars.drop (endIdx + 1).toNat)
      let ppid : Int := if fields.length ≥ 2 then atoiValue (fields.getD 1 "") else 0
      Outcome.ok (name, ppid)
  else Outcome.ok ("", 0)

/-- A stat line of the shape the source expects, `PID (NAME) STATE PPID ...` (processes.go
196), as the kernel writes it for every process: some text, `(`, the name, `)`, the rest. -/
def IsStatLine (statStr : String) : Prop :=
  ∃ a b c : List Char, statStr.toList = a ++ '(' :: (b ++ ')' :: c)

/-- The command line `getProcessInfo` reads (processes.go 186-187). -/
def cmdlineText (cmdlineData : String) : String :=
  TrimSpace (replaceNul cmdlineData)

/-- Go `ProcessManager.getProcessInfo` (processes.go 178-223). -/
def getProcessInfo (fs : ProcFS) (pid : Int) : Outcome Process :=
  match fs.cmdline pid with
  | none => Outcome.err "read cmdline"
  | some cmdlineData =>
    let cmdline := cmdlineText cmdlineData
    match fs.stat pid with
    | none => Outcome.err "read stat"
    | some statData =>
      match parseStat statData with
      | Outcome.panic e => Outcome.panic e
      | Outcome.err e => Outcome.err e
      | Outcome.ok (name, ppid) =>
        let cmdline := if cmdline = "" then "[" ++ name ++ "]" else cmdline
        Outcome.ok (mkProcess pid { Name := name, Cmdline := cmdline, Parent := ppid })

/-- A process table with one process, pid 42, with the given file contents. -/
def oneProcess (cgroup cmdline stat : String) : ProcFS :=
  { readDir := some [{ Name := "42", IsDir := true }]
    cgroup := fun pid => if pid = 42 then some cgroup else none
    cmdline := fun pid => if pid = 42 then some cmdline else none
    stat := fun pid => if pid = 42 then some stat else none }

/-- A process table: the directory `self`, the file `uptime`, and the processes 1
(`init.scope`), 10 and 12 (`web.service`), 11 (cgroup unreadable), 13 (`db.service`). -/
def sampleProcFS : ProcFS :=
  { readDir := some
      [ { Name := "1", IsDir := true }, { Name := "10", IsDir := true },
        { Name := "11", IsDir := true }, { Name := "12", IsDir := true },
        { Name := "13", IsDir := true }, { Name := "self", IsDir := true },
        { Name := "uptime", IsDir := false } ]
    cgroup := fun pid =>
      if pid = 1 then some "0::/init.scope\n"
      else if pid = 10 then some "0::/system.slice/web.service\n"
      else if pid = 12 then some "0::/system.slice/web.service\n"
      else if pid = 13 then some "0::/system.slice/db.service\n"
      else none
    cmdline := fun _ => none
    stat := fun _ => none }

/-! ## internal/ui/model.go : the commands of the filter and of the lifecycle keys -/

/-- The list `applyFilter` builds (model.go 469-486) from the filter mode and
`m.allServices`. -/
def filterServices (filterMode : String) (allServices : List Service) : List Service :=
  match filterMode with
  | "running" =>
    allServices.filter (fun svc => svc.SubState = "running" || svc.ActiveState = "active")
  | "failed" =>
    allServices.filter (fun svc => svc.ActiveState = "failed" || svc.SubState = "failed")
  | _ => allServices

/-- The message the command of `applyFilter` produces (model.go 467-495) when it runs with
the model in state `m`. -/
def applyFilterMsg (m : Model) : Msg :=
  Msg.servicesLoaded (filterServices m.filterMode m.allServices)

/-- The D-Bus connection of `systemd.Manager`, an external collaborator: for each call the
error it returns for a unit name (`none` is a `nil` error). -/
structure Manager where
  RestartUnit : String → Option String
  StopUnit : String → Option String
  StartUnit : String → Option String
  EnableUnitFiles : String → Option String
  DisableUnitFiles : String → Option String

/-- Go `Manager.RestartService` (services.go 59-62). -/
def Manager.RestartService (mgr : Manager) (serviceName : String) : Option String :=
  mgr.RestartUnit serviceName

/-- Go `Manager.StopService` (services.go 65-68). -/
def Manager.StopService (mgr : Manager) (serviceName : String) : Option String :=
  mgr.StopUnit serviceName

/-- Go `Manager.StartService` (services.go 71-74). -/
def Manager.StartService (mgr : Manager) (serviceName : String) : Option String :=
  mgr.StartUnit serviceName

/-- Go `Manager.EnableService` (services.go 77-84); the reload after a success has no
result. -/
def Manager.EnableService (mgr : Manager) (serviceName : String) : Option String :=
  match mgr.EnableUnitFiles serviceName with
  | some err => some err
  | none => none

/-- Go `Manager.DisableService` (services.go 87-94). -/
def Manager.DisableService (mgr : Manager) (serviceName : String) : Option String :=
  match mgr.DisableUnitFiles serviceName with
  | some err => some err
  | none => none

/-- The five lifecycle commands of the keys `r`, `s`, `t`, `e`, `d`. -/
inductive Lifecycle where
  | restart
  | stop
  | start
  | enable
  | disable
deriving DecidableEq, Repr, Inhabited

/-- Key bound to a lifecycle command (model.go 197-225). -/
def Lifecycle.key : Lifecycle → String
  | Lifecycle.restart => "r"
  | Lifecycle.stop => "s"
  | Lifecycle.start => "t"
  | Lifecycle.enable => "e"
  | Lifecycle.disable => "d"

/-- Command `Update` returns for the key of a lifecycle command. -/
def Lifecycle.cmd : Lifecycle → Cmd
  | Lifecycle.restart => Cmd.restartService
  | Lifecycle.stop => Cmd.stopService
  | Lifecycle.start => Cmd.startService
  | Lifecycle.enable => Cmd.enableService
  | Lifecycle.disable => Cmd.disableService

/-- The message the command of `restartService`, `stopService`, `startService`,
`enableService` or `disableService` produces (model.go 403-451) when it runs with the
model in state `m`. The text of the enable message ends in the three characters U+00E2,
U+0153, U+201C that the source file holds there. -/
def lifecycleMsg (mgr : Manager) (m : Model) : Lifecycle → Msg
  | Lifecycle.restart =>
    match mgr.RestartService m.currentService with
    | some err => Msg.error ("Failed to restart: " ++ err)
    | none => Msg.status ("Restarting " ++ m.currentService ++ "...")
  | Lifecycle.stop =>
    match mgr.StopService m.currentService with
    | some err => Msg.error ("Failed to stop: " ++ err)
    | none => Msg.status ("Stopping " ++ m.currentService ++ "...")
  | Lifecycle.start =>
    match mgr.StartService m.currentService with
    | some err => Msg.error ("Failed to start: " ++ err)
    | none => Msg.status ("Starting " ++ m.currentService ++ "...")
  | Lifecycle.enable =>
    match mgr.EnableService m.currentService with
    | some err => Msg.error ("Failed to enable: " ++ err)
    | none => Msg.status ("Enabled " ++ m.currentService ++ " on boot \u00e2\u0153\u201c")
  | Lifecycle.disable =>
    match mgr.DisableService m.currentService with
    | some err => Msg.error ("Failed to disable: " ++ err)
    | none => Msg.status ("Disabled " ++ m.currentService ++ " from boot")

/-- A manager whose calls all succeed. -/
def okManager : Manager :=
  { RestartUnit := fun _ => none, StopUnit := fun _ => none, StartUnit := fun _ => none,
    EnableUnitFiles := fun _ => none, DisableUnitFiles := fun _ => none }

/-- A full listing F: one running service and one failed service. -/
def listingF : List Service :=
  [ { Name := "web.service", Description := "web", ActiveState := "active",
      SubState := "running", LoadState := "loaded", UnitFileState := "" },
    { Name := "backup.service", Description := "backup", ActiveState := "failed",
      SubState := "failed", LoadState := "loaded", UnitFileState := "" } ]

/-- State after the service directory delivered the full listing F. -/
def modelF : Model :=
  stateAfter idleWidgets NewModel (Msg.servicesLoaded listingF)

/-- A filter key followed by the delivery of the `servicesLoadedMsg` its command produces. -/
def filterStep (w : Widgets) (m : Model) (k : String) : Model :=
  stateAfter w (stateAfter w m (Msg.key k)) (applyFilterMsg (stateAfter w m (Msg.key k)))

/-- A journal on which setting the filter fails. -/
def brokenJournal : Journal :=
  { entries := [], matchList := [], cursor := Cursor.head, addMatchErr := true,
    seekTailErr := false, navErrs := [] }

/-- `r` is the least nesting depth within which the call for `q` returns. -/
def IsRenderDepth (heap : Heap) (q : Ptr) (r : Nat) : Prop :=
  (renderProcess heap r q).isSome = true ∧ renderProcess heap (r - 1) q = none

/-! ## Theorems -/

theorem firstPass_heap (read : Int → Option ProcStat) (pids : List Int) (s : BuildState) :
    (firstPass read pids s).heap = s.heap ++ records read pids := by
  induction pids generalizing s with
  | nil => simp [firstPass, records]
  | cons pid rest ih =>
    cases h : read pid with
    | none => simp [firstPass, records, h, ih]
    | some st => simp [firstPass, records, h, ih]

theorem firstPass_processes (read : Int → Option ProcStat) (pids : List Int) (s : BuildState) :
    (firstPass read pids s).processes =
      s.processes ++ List.range' s.heap.length (records read pids).length := by
  induction pids generalizing s with
  | nil => simp [firstPass, records]
  | cons pid rest ih =>
    cases h : read pid with
    | none => simp [firstPass, records, h, ih]
    | some st =>
      simp [firstPass, records, h, ih, List.range'_succ] 

/-! ### Process forest: the two passes of `GetServiceProcesses` -/

theorem firstPass_map (read : Int → Option ProcStat) (pids : List Int) (s : BuildState)
    (hnd : pids.Nodup) (hfresh : ∀ pid ∈ pids, pid ∉ s.heap.map (·.PID))
    (hs : MapOK s.processMap s.heap) :
    MapOK (firstPass read pids s).processMap (firstPass read pids s).heap := by
  induction pids generalizing s with
  | nil => simpa [firstPass] using hs
  | cons pid rest ih =>
    have hnd' : rest.Nodup := (List.nodup_cons.mp hnd).2
    have hpid : pid ∉ rest := (List.nodup_cons.mp hnd).1
    cases h : read pid with
    | none =>
      simp only [firstPass, h]
      exact ih s hnd' (fun q hq => hfresh q (List.mem_cons_of_mem _ hq)) hs
    | some st =>
      simp only [firstPass, h]
      apply ih _ hnd'
      · intro q hq hmem
        simp only [List.map_append, List.map_cons, List.map_nil, List.mem_append,
          List.mem_singleton] at hmem
        rcases hmem with hmem | hmem
        · exact hfresh q (List.mem_cons_of_mem _ hq) hmem
        · have : q = pid := by simpa [mkProcess] using hmem
          exact hpid (this ▸ hq)
      · intro k i
        have hfr : pid ∉ s.heap.map (·.PID) := hfresh pid (List.mem_cons_self _ _)
        by_cases hk : k = pid
        · subst hk
          simp only [if_true]
          constructor
          · intro hi
            have : i = s.heap.length := by simpa using hi.symm
            subst this
            simp [mkProcess]
          · intro hi
            rcases Nat.lt_trichotomy i s.heap.length with hlt | heq | hgt
            · exfalso
              rw [List.getElem?_append_left hlt] at hi
              apply hfr
              rw [List.getElem?_eq_getElem hlt] at hi
              simp only [Option.map_some', Option.some.injEq] at hi
              exact List.mem_map.mpr ⟨_, List.getElem_mem hlt, hi⟩
            · simp [heq]
            · exfalso
              rw [List.getElem?_eq_none (by simp; omega)] at hi
              simp at hi
        · simp only [if_neg hk]
          rw [hs k i]
          rcases Nat.lt_trichotomy i s.heap.length with hlt | heq | hgt
          · rw [List.getElem?_append_left hlt]
          · subst heq
            simp only [List.getElem?_eq_none (Nat.le_refl _), Option.map_none', false_iff]
            simp [mkProcess]
            exact fun h => hk h.symm
          · have h1 : (s.heap ++ [mkProcess pid st]).length ≤ i := by
              rw [List.length_append, List.length_singleton]; omega
            rw [List.getElem?_eq_none h1, List.getElem?_eq_none (by omega)]

theorem modify_appendChild_parent (heap : Heap) (c j : Ptr) (p : Ptr) :
    ((heap.modify (appendChild c) j)[p]?).map (·.Parent) = (heap[p]?).map (·.Parent) := by
  rw [List.getElem?_modify]
  cases heap[p]? with
  | none => rfl
  | some pr => by_cases h : j = p <;> simp [h, appendChild]

theorem parentOf_modify (pm : Int → Option Ptr) (heap : Heap) (c j p : Ptr) :
    parentOf pm (heap.modify (appendChild c) j) p = parentOf pm heap p := by
  have h := modify_appendChild_parent heap c j p
  unfold parentOf
  cases h1 : (heap.modify (appendChild c) j)[p]? <;> cases h2 : heap[p]? <;>
    simp_all

theorem isRootPtr_modify (pm : Int → Option Ptr) (heap : Heap) (c j p : Ptr) :
    isRootPtr pm (heap.modify (appendChild c) j) p = isRootPtr pm heap p := by
  have h := modify_appendChild_parent heap c j p
  unfold isRootPtr
  cases h1 : (heap.modify (appendChild c) j)[p]? <;> cases h2 : heap[p]? <;>
    simp_all

theorem secondPass_roots (pm : Int → Option Ptr) (ps : List Ptr) (heap : Heap)
    (roots : List Ptr) :
    (secondPass pm ps heap roots).2 = roots ++ ps.filter (isRootPtr pm heap) := by
  induction ps generalizing heap roots with
  | nil => simp [secondPass]
  | cons p rest ih =>
    cases h : heap[p]? with
    | none => simp [secondPass, ih, List.filter_cons, isRootPtr, h]
    | some pr =>
      cases h2 : pm pr.Parent with
      | none => simp [secondPass, ih, List.filter_cons, isRootPtr, h, h2]
      | some j =>
        have hr : isRootPtr pm heap p = false := by simp [isRootPtr, h, h2]
        simp only [secondPass, h, h2, ih, List.filter_cons, hr]
        congr 1
        apply List.filter_congr
        intro x _
        exact isRootPtr_modify pm heap p j x

theorem secondPass_heap (pm : Int → Option Ptr) (ps : List Ptr) (heap : Heap)
    (roots : List Ptr) (i : Ptr) :
    (secondPass pm ps heap roots).1[i]? = (heap[i]?).map (withChildren pm heap ps i) := by
  induction ps generalizing heap roots with
  | nil =>
    cases hi : heap[i]? <;> simp [secondPass, withChildren, hi]
  | cons p rest ih =>
    cases h : heap[p]? with
    | none =>
      have hp : parentOf pm heap p = none := by simp [parentOf, h]
      have hw : withChildren pm heap (p :: rest) i = withChildren pm heap rest i := by
        funext q; simp [withChildren, List.filter_cons, hp]
      simp [secondPass, h, ih, hw]
    | some pr =>
      cases h2 : pm pr.Parent with
      | none =>
        have hp : parentOf pm heap p = none := by simp [parentOf, h, h2]
        have hw : withChildren pm heap (p :: rest) i = withChildren pm heap rest i := by
          funext q; simp [withChildren, List.filter_cons, hp]
        simp [secondPass, h, h2, ih, hw]
      | some j =>
        have hp : parentOf pm heap p = some j := by simp [parentOf, h, h2]
        simp only [secondPass, h, h2, ih]
        rw [List.getElem?_modify]
        cases hi : heap[i]? with
        | none => rfl
        | some q =>
          simp only [Option.map_some', Option.some.injEq, withChildren, List.filter_cons, hp,
            parentOf_modify, Functor.map]
          by_cases hji : j = i
          · subst hji
            simp [appendChild]
          · have : ¬ (some j = some i) := by simpa using hji
            simp [hji, this]

/-! ### Process forest: counting node occurrences -/

theorem sum_map_swap {α β : Type} (l1 : List α) (l2 : List β) (g : α → β → Nat) :
    (l1.map (fun a => (l2.map (g a)).sum)).sum =
      (l2.map (fun b => (l1.map (fun a => g a b)).sum)).sum := by
  induction l1 with
  | nil => simp
  | cons a l1 ih =>
    simp only [List.map_cons, List.sum_cons, ih]
    rw [← List.sum_map_add]

theorem sum_indicator_eq_count (l : List Nat) (c0 : Nat) :
    (l.map (fun c => if c0 = c then 1 else 0)).sum = l.count c0 := by
  induction l with
  | nil => simp
  | cons a l ih =>
    simp only [List.map_cons, List.sum_cons, ih, List.count_cons]
    by_cases h : c0 = a
    · subst h; simp; omega
    · have : ¬ (a = c0) := fun e => h e.symm
      simp [h, this]

theorem sum_children_indicator (par : Nat → Option Nat) (n i : Nat) (x : Option Nat)
    (hx : ∀ c, x = some c → c < n) :
    (((List.range n).filter (fun p => decide (par p = some i))).map
        (fun c => if x = some c then 1 else 0)).sum =
      if x.bind par = some i then 1 else 0 := by
  cases x with
  | none => simp
  | some c0 =>
    have hc : c0 < n := hx c0 rfl
    simp only [Option.some.injEq, Option.some_bind]
    rw [sum_indicator_eq_count]
    by_cases hp : par c0 = some i
    · rw [List.count_filter (by simpa using hp)]
      simp only [hp, if_true]
      exact List.count_eq_one_of_mem (List.nodup_range n) (List.mem_range.mpr hc)
    · simp only [hp, if_false]
      apply List.count_eq_zero_of_not_mem
      simp [hp]

theorem anc_lt (par : Nat → Option Nat) (n : Nat) (hpar : ∀ p i, par p = some i → i < n)
    (d k c : Nat) (hk : k < n) (h : anc par d k = some c) : c < n := by
  cases d with
  | zero =>
    simp only [anc, Option.some.injEq] at h
    omega
  | succ d =>
    simp only [anc] at h
    cases h1 : anc par d k with
    | none => simp [h1] at h
    | some c1 =>
      rw [h1] at h
      exact hpar c1 c h

theorem count_walk (heap : Heap) (par : Nat → Option Nat)
    (hch : ∀ i pr, heap[i]? = some pr →
      pr.Children = (List.range heap.length).filter (fun p => decide (par p = some i)))
    (hpar : ∀ p i, par p = some i → i < heap.length)
    (k : Nat) (hk : k < heap.length) (f i : Nat) (hi : i < heap.length) :
    (walk heap f i).count k =
      ((List.range f).map (fun d => if anc par d k = some i then 1 else 0)).sum := by
  induction f generalizing i with
  | zero => simp [walk]
  | succ f ih =>
    have hget : heap[i]? = some heap[i] := List.getElem?_eq_getElem hi
    simp only [walk, hget]
    rw [List.count_cons, List.count_flatMap, hch i _ hget]
    have hmap : List.map (List.count k ∘ walk heap f)
          ((List.range heap.length).filter (fun p => decide (par p = some i))) =
        List.map (fun c => ((List.range f).map
            (fun d => if anc par d k = some c then 1 else 0)).sum)
          ((List.range heap.length).filter (fun p => decide (par p = some i))) := by
      apply List.map_congr_left
      intro c hc
      have hc' : c < heap.length := List.mem_range.mp (List.mem_of_mem_filter hc)
      simpa using ih c hc'
    rw [hmap, sum_map_swap]
    have hinner : ∀ d, (((List.range heap.length).filter
          (fun p => decide (par p = some i))).map
            (fun c => if anc par d k = some c then 1 else 0)).sum =
          if anc par (d + 1) k = some i then 1 else 0 := by
      intro d
      rw [sum_children_indicator par heap.length i (anc par d k)
        (fun c hc => anc_lt par heap.length hpar d k c hk hc)]
      rfl
    simp only [hinner]
    rw [List.range_succ_eq_map, List.map_cons, List.sum_cons, List.map_map]
    simp only [anc, Option.some.injEq, Function.comp_def]
    have : (if (i == k) = true then 1 else 0) = (if k = i then 1 else 0 : Nat) := by
      by_cases h : i = k
      · subst h; simp
      · have : ¬ k = i := fun e => h e.symm
        simp [h, this]
    rw [this]
    omega

theorem anc_add (par : Nat → Option Nat) (d e k : Nat) :
    anc par (d + e) k = (anc par d k).bind (anc par e) := by
  induction e with
  | zero =>
    cases h : anc par d k <;> simp [anc, h]
  | succ e ih =>
    rw [← Nat.add_assoc]
    simp only [anc, ih]
    cases h : anc par d k <;> simp [anc]

theorem anc_none_mono (par : Nat → Option Nat) (d e k : Nat) (hde : d ≤ e)
    (h : anc par d k = none) : anc par e k = none := by
  obtain ⟨x, rfl⟩ := Nat.exists_eq_add_of_le hde
  rw [anc_add, h]; rfl

theorem anc_none_of_no_cycle (par : Nat → Option Nat) (n : Nat)
    (hpar : ∀ p i, par p = some i → i < n)
    (hac : ∀ j d, 0 < d → anc par d j ≠ some j) (k : Nat) (hk : k < n) :
    anc par n k = none := by
  by_contra hne
  have hsome : ∀ d, d ≤ n → ∃ c, anc par d k = some c := by
    intro d hd
    cases h : anc par d k with
    | none => exact absurd (anc_none_mono par d n k hd h) hne
    | some c => exact ⟨c, rfl⟩
  have hmaps : ∀ d ∈ Finset.range (n + 1), (anc par d k).getD 0 ∈ Finset.range n := by
    intro d hd
    obtain ⟨c, hc⟩ := hsome d (by simpa [Nat.lt_succ_iff] using hd)
    simp only [hc, Option.getD_some, Finset.mem_range]
    exact anc_lt par n hpar d k c hk hc
  obtain ⟨d1, hd1, d2, hd2, hne12, heq⟩ :=
    Finset.exists_ne_map_eq_of_card_lt_of_maps_to (by simp) hmaps
  have key : ∀ a b, a < b → b ≤ n → (anc par a k).getD 0 = (anc par b k).getD 0 → False := by
    intro a b hab hb he
    obtain ⟨ca, hca⟩ := hsome a (by omega)
    obtain ⟨cb, hcb⟩ := hsome b hb
    simp only [hca, hcb, Option.getD_some] at he
    subst he
    obtain ⟨x, rfl⟩ := Nat.exists_eq_add_of_le (Nat.le_of_lt hab)
    rw [anc_add, hca] at hcb
    exact hac ca x (by omega) hcb
  have h1 : d1 ≤ n := by simpa [Nat.lt_succ_iff] using hd1
  have h2 : d2 ≤ n := by simpa [Nat.lt_succ_iff] using hd2
  rcases Nat.lt_or_gt_of_ne hne12 with h | h
  · exact key d1 d2 h h2 heq
  · exact key d2 d1 h h1 heq.symm

theorem sum_last_step (s : Nat → Bool) (hs : ∀ d, s (d + 1) = true → s d = true) (n : Nat) :
    ((List.range n).map (fun d => if s d = true ∧ s (d + 1) = false then 1 else 0)).sum +
      (if s n = true then 1 else 0) = if s 0 = true then 1 else 0 := by
  induction n with
  | zero => simp
  | succ n ih =>
    rw [List.range_succ, List.map_append, List.sum_append]
    simp only [List.map_cons, List.map_nil, List.sum_cons, List.sum_nil]
    have h := hs n
    cases h1 : s (n + 1) <;> cases h2 : s n <;> simp_all

theorem sum_roots_indicator (q : Nat → Bool) (par : Nat → Option Nat) (n : Nat)
    (hq : ∀ c, c < n → (q c = true ↔ par c = none)) (x : Option Nat)
    (hx : ∀ c, x = some c → c < n) :
    (((List.range n).filter q).map (fun c => if x = some c then 1 else 0)).sum =
      if x.isSome = true ∧ (x.bind par).isSome = false then 1 else 0 := by
  cases x with
  | none => simp
  | some c0 =>
    have hc : c0 < n := hx c0 rfl
    simp only [Option.some.injEq, Option.some_bind, Option.isSome_some, true_and]
    rw [sum_indicator_eq_count]
    by_cases hp : q c0 = true
    · rw [List.count_filter hp]
      have : par c0 = none := (hq c0 hc).mp hp
      simp only [this, Option.isSome_none, if_true]
      exact List.count_eq_one_of_mem (List.nodup_range n) (List.mem_range.mpr hc)
    · have hn : ¬ par c0 = none := fun e => hp ((hq c0 hc).mpr e)
      have : (par c0).isSome = true := by
        cases h : par c0 with
        | none => exact absurd h hn
        | some _ => rfl
      simp only [this, Bool.true_eq_false, if_false]
      apply List.count_eq_zero_of_not_mem
      simp [hp]

/-- In a heap whose child lists and roots are those of an acyclic parent function, every
address occurs exactly once among the nodes reached from the roots. -/
theorem count_forest (heap : Heap) (par : Nat → Option Nat) (q : Nat → Bool)
    (hch : ∀ i pr, heap[i]? = some pr →
      pr.Children = (List.range heap.length).filter (fun p => decide (par p = some i)))
    (hpar : ∀ p i, par p = some i → i < heap.length)
    (hq : ∀ c, c < heap.length → (q c = true ↔ par c = none))
    (hac : ∀ j d, 0 < d → anc par d j ≠ some j)
    (k : Nat) (hk : k < heap.length) :
    (((List.range heap.length).filter q).flatMap (walk heap heap.length)).count k = 1 := by
  rw [List.count_flatMap]
  have hmap : List.map (List.count k ∘ walk heap heap.length)
        ((List.range heap.length).filter q) =
      List.map (fun r => ((List.range heap.length).map
          (fun d => if anc par d k = some r then 1 else 0)).sum)
        ((List.range heap.length).filter q) := by
    apply List.map_congr_left
    intro r hr
    have hr' : r < heap.length := List.mem_range.mp (List.mem_of_mem_filter hr)
    simpa using count_walk heap par hch hpar k hk heap.length r hr'
  rw [hmap, sum_map_swap]
  have hinner : ∀ d, (((List.range heap.length).filter q).map
        (fun r => if anc par d k = some r then 1 else 0)).sum =
      if (anc par d k).isSome = true ∧ (anc par (d + 1) k).isSome = false then 1 else 0 := by
    intro d
    rw [sum_roots_indicator q par heap.length hq (anc par d k)
      (fun c hc => anc_lt par heap.length hpar d k c hk hc)]
    rfl
  simp only [hinner]
  have hmono : ∀ d, (anc par (d + 1) k).isSome = true → (anc par d k).isSome = true := by
    intro d hd
    cases h : anc par d k with
    | none => simp [anc, h] at hd
    | some _ => rfl
  have hs := sum_last_step (fun d => (anc par d k).isSome) hmono heap.length
  have hn := anc_none_of_no_cycle par heap.length hpar hac k hk
  have h0 : anc par 0 k = some k := rfl
  rw [hn, h0] at hs
  exact hs

theorem secondPass_length (pm : Int → Option Ptr) (ps : List Ptr) (heap : Heap)
    (roots : List Ptr) : (secondPass pm ps heap roots).1.length = heap.length := by
  induction ps generalizing heap roots with
  | nil => simp [secondPass]
  | cons p rest ih =>
    cases h : heap[p]? with
    | none => simp [secondPass, h, ih]
    | some pr =>
      cases h2 : pm pr.Parent with
      | none => simp [secondPass, h, h2, ih]
      | some j => simp [secondPass, h, h2, ih, List.length_modify]

theorem mapOK_firstPass (read : Int → Option ProcStat) (pids : List Int) (hnd : pids.Nodup) :
    MapOK (firstPass read pids BuildState.init).processMap (records read pids) := by
  have h := firstPass_map read pids BuildState.init hnd (by simp [BuildState.init])
    (by intro k i; simp [BuildState.init])
  rw [firstPass_heap] at h
  simpa [BuildState.init] using h

theorem firstPass_heap_init (read : Int → Option ProcStat) (pids : List Int) :
    (firstPass read pids BuildState.init).heap = records read pids := by
  rw [firstPass_heap]; simp [BuildState.init]

theorem firstPass_processes_init (read : Int → Option ProcStat) (pids : List Int) :
    (firstPass read pids BuildState.init).processes = List.range (records read pids).length := by
  rw [firstPass_processes]; simp [BuildState.init, List.range_eq_range']

theorem records_children (read : Int → Option ProcStat) (pids : List Int) (i : Nat)
    (pr : Process) (h : (records read pids)[i]? = some pr) : pr.Children = [] := by
  have hm : pr ∈ records read pids := List.getElem?_mem h
  simp only [records, List.mem_filterMap] at hm
  obtain ⟨pid, _, hp⟩ := hm
  cases hr : read pid with
  | none => simp [hr] at hp
  | some st =>
    simp only [hr, Option.map_some', Option.some.injEq] at hp
    subst hp; rfl

theorem records_pids (read : Int → Option ProcStat) (pids : List Int) :
    (records read pids).map (·.PID) = pids.filter (fun p => (read p).isSome) := by
  induction pids with
  | nil => rfl
  | cons pid rest ih =>
    cases h : read pid with
    | none =>
      simp only [records, List.filterMap_cons, h, Option.map_none', List.filter_cons,
        Option.isSome_none, Bool.false_eq_true, if_false]
      exact ih
    | some st =>
      simp only [records, List.filterMap_cons, h, Option.map_some', List.filter_cons,
        Option.isSome_some, if_true, List.map_cons]
      congr 1

theorem records_eq_nil_iff (read : Int → Option ProcStat) (pids : List Int) :
    records read pids = [] ↔ ∀ pid ∈ pids, read pid = none := by
  simp only [records, List.filterMap_eq_nil_iff, Option.map_eq_none']

theorem mapOK_lt {pm : Int → Option Ptr} {heap : Heap} (h : MapOK pm heap) {k : Int} {i : Nat}
    (hi : pm k = some i) : i < heap.length := by
  have := (h k i).mp hi
  by_contra hge
  rw [List.getElem?_eq_none (by omega)] at this
  simp at this

theorem parentOf_iff_isParentOf {pm : Int → Option Ptr} {heap : Heap} (h : MapOK pm heap)
    (p i : Nat) : parentOf pm heap p = some i ↔ isParentOf heap p i = true := by
  unfold parentOf isParentOf
  cases hp : heap[p]? with
  | none => simp
  | some rp =>
    simp only [h rp.Parent i]
    cases hi : heap[i]? with
    | none => simp
    | some ri =>
      simp only [Option.map_some', Option.some.injEq, decide_eq_true_eq]
      exact eq_comm

theorem transGen_of_anc (par : Nat → Option Nat) (R : Nat → Nat → Prop)
    (hR : ∀ p i, par p = some i → R p i) (d k i : Nat) (hd : 0 < d)
    (h : anc par d k = some i) : Relation.TransGen R k i := by
  induction d generalizing i with
  | zero => omega
  | succ d ih =>
    simp only [anc] at h
    cases hc : anc par d k with
    | none => simp [hc] at h
    | some c =>
      rw [hc] at h
      have hci : R c i := hR c i h
      cases d with
      | zero =>
        simp only [anc, Option.some.injEq] at hc
        subst hc
        exact Relation.TransGen.single hci
      | succ d' => exact Relation.TransGen.tail (ih c (by omega) hc) hci

theorem acyclic_of_rank (recs : List Process) (rank : Nat → Nat)
    (h : ∀ j, j < recs.length → ∀ i, i < recs.length →
      isParentOf recs j i = true → rank i < rank j) : Acyclic recs := by
  have hlt : ∀ j i, isParentOf recs j i = true → rank i < rank j := by
    intro j i hji
    have hj : j < recs.length := by
      by_contra hge
      simp [isParentOf, List.getElem?_eq_none (show recs.length ≤ j by omega)] at hji
    have hi : i < recs.length := by
      by_contra hge
      unfold isParentOf at hji
      rw [List.getElem?_eq_none (show recs.length ≤ i by omega)] at hji
      cases hrj : recs[j]? <;> simp [hrj] at hji
    exact h j hj i hi hji
  have key : ∀ a b, Relation.TransGen (fun j i => isParentOf recs j i = true) a b →
      rank b < rank a := by
    intro a b hab
    induction hab with
    | single h1 => exact hlt _ _ h1
    | tail _ h2 ih => exact Nat.lt_trans (hlt _ _ h2) ih
  intro i hi
  exact Nat.lt_irrefl _ (key i i hi)

theorem mem_walk_lt (heap : Heap) (f p x : Nat) (h : x ∈ walk heap f p) : x < heap.length := by
  induction f generalizing p with
  | zero => simp [walk] at h
  | succ f ih =>
    cases hp : heap[p]? with
    | none => simp [walk, hp] at h
    | some pr =>
      simp only [walk, hp, List.mem_cons, List.mem_flatMap] at h
      rcases h with h | ⟨c, _, hc⟩
      · subst h
        by_contra hge
        rw [List.getElem?_eq_none (by omega)] at hp
        simp at hp
      · exact ih c hc

/-- Shape of the heap and of `roots` when the second pass ends. -/
theorem passes_result (read : Int → Option ProcStat) (pids : List Int) :
    let s := firstPass read pids BuildState.init
    let r := secondPass s.processMap s.processes s.heap []
    r.1.length = (records read pids).length ∧
    r.2 = (List.range (records read pids).length).filter
            (isRootPtr s.processMap (records read pids)) ∧
    ∀ i pr, r.1[i]? = some pr → ∃ pr0, (records read pids)[i]? = some pr0 ∧
      pr.PID = pr0.PID ∧ pr.Parent = pr0.Parent ∧ pr.Name = pr0.Name ∧
      pr.Cmdline = pr0.Cmdline ∧
      pr.Children = (List.range (records read pids).length).filter
        (fun p => decide (parentOf s.processMap (records read pids) p = some i)) := by
  intro s r
  have hh : s.heap = records read pids := firstPass_heap_init read pids
  have hp : s.processes = List.range (records read pids).length :=
    firstPass_processes_init read pids
  refine ⟨?_, ?_, ?_⟩
  · show (secondPass s.processMap s.processes s.heap []).1.length = _
    rw [secondPass_length, hh]
  · show (secondPass s.processMap s.processes s.heap []).2 = _
    rw [secondPass_roots, hh, hp]; rfl
  · intro i pr hi
    have h1 : (secondPass s.processMap s.processes s.heap []).1[i]? = some pr := hi
    rw [secondPass_heap, hh, hp] at h1
    cases h0 : (records read pids)[i]? with
    | none => simp [h0] at h1
    | some pr0 =>
      rw [h0] at h1
      simp only [Option.map_some', Option.some.injEq] at h1
      subst h1
      refine ⟨pr0, rfl, rfl, rfl, rfl, rfl, ?_⟩
      simp [withChildren, records_children read pids i pr0 h0]

/-- Result of `GetServiceProcesses` on a non-empty pid list, in terms of the two passes. -/
theorem gsp_eq (read : Int → Option ProcStat) (pids : List Int) (hne : pids ≠ []) :
    GetServiceProcesses pids read =
      .ok { heap := (secondPass (firstPass read pids BuildState.init).processMap
                      (firstPass read pids BuildState.init).processes
                      (firstPass read pids BuildState.init).heap []).1
            roots := if rootsFound pids read = [] ∧ records read pids ≠ []
                     then [0] else rootsFound pids read } := by
  have hlen : ¬ pids.length = 0 := by
    intro h; exact hne (List.length_eq_zero.mp h)
  have hp := firstPass_processes_init read pids
  unfold GetServiceProcesses rootsFound
  simp only [hlen, if_false]
  generalize secondPass (firstPass read pids BuildState.init).processMap
    (firstPass read pids BuildState.init).processes
    (firstPass read pids BuildState.init).heap [] = r
  rw [hp]
  by_cases hr : r.2 = []
  · by_cases hn : records read pids = []
    · simp [hr, hn]
    · have hpos : 0 < (records read pids).length := List.length_pos.mpr hn
      have ht : List.take 1 (List.range (records read pids).length) = [0] := by
        obtain ⟨m, hm⟩ := Nat.exists_eq_succ_of_ne_zero (Nat.pos_iff_ne_zero.mp hpos)
        rw [hm, List.range_succ_eq_map]; simp
      simp [hr, hn, ht, hpos]
  · simp [hr]

/-! ### Process forest: claims C1 to C4 -/

/-- C1 (as amended): for a membership list of distinct pids, whenever `GetServiceProcesses`
returns a forest, (a) if the parent relation among the records that were read is acyclic,
every pid whose record was read occurs in exactly one node of the forest and no other pid
occurs at all, and (b) every non-root node occurs exactly once in the child list of the node
whose pid is its parent pid, and in no other child list. -/
theorem C1_read_pids_once_in_forest (pids : List Int) (read : Int → Option ProcStat)
    (hnd : pids.Nodup) (f : Forest) (hf : GetServiceProcesses pids read = .ok f) :
    (Acyclic (records read pids) →
      ∀ pid, f.pids.count pid = if pid ∈ pids ∧ (read pid).isSome = true then 1 else 0) ∧
    (∀ c rc, f.heap[c]? = some rc → c ∉ f.roots →
      ∃ (p : Nat) (rp : Process), f.heap[p]? = some rp ∧ rp.PID = rc.Parent ∧ rp.Children.count c = 1 ∧
        ∀ (q : Nat) (rq : Process), f.heap[q]? = some rq → q ≠ p → c ∉ rq.Children) := by
  have hne : pids ≠ [] := by
    intro h; subst h; simp [GetServiceProcesses] at hf
  rw [gsp_eq read pids hne] at hf
  have hf' := (Except.ok.inj hf).symm
  obtain ⟨hlen, hroots, hheap⟩ := passes_result read pids
  have hmap := mapOK_firstPass read pids hnd
  have hR : rootsFound pids read = (List.range (records read pids).length).filter
      (isRootPtr (firstPass read pids BuildState.init).processMap (records read pids)) := hroots
  generalize hpm : (firstPass read pids BuildState.init).processMap = pm at *
  generalize hH : (secondPass pm (firstPass read pids BuildState.init).processes
    (firstPass read pids BuildState.init).heap []).1 = H at *
  generalize hrecs : records read pids = recs at *
  have hch : ∀ i pr, H[i]? = some pr →
      pr.Children = (List.range H.length).filter (fun p => decide (parentOf pm recs p = some i)) := by
    intro i pr hi
    obtain ⟨_, _, _, _, _, _, h⟩ := hheap i pr hi
    rw [hlen]; exact h
  have hpar : ∀ p i, parentOf pm recs p = some i → i < H.length := by
    intro p i h
    rw [hlen]
    unfold parentOf at h
    cases hp : recs[p]? with
    | none => simp [hp] at h
    | some rp => rw [hp] at h; exact mapOK_lt hmap h
  have hq : ∀ c, c < H.length → (isRootPtr pm recs c = true ↔ parentOf pm recs c = none) := by
    intro c hc
    rw [hlen] at hc
    simp [isRootPtr, parentOf, List.getElem?_eq_getElem hc]
  constructor
  · intro hacyc pid
    have hac : ∀ j d, 0 < d → anc (parentOf pm recs) d j ≠ some j := by
      intro j d hd h
      exact hacyc j (transGen_of_anc (parentOf pm recs) _
        (fun p i hpi => (parentOf_iff_isParentOf hmap p i).mp hpi) d j j hd h)
    have hcount : ∀ k, k < H.length →
        (((List.range H.length).filter (isRootPtr pm recs)).flatMap (walk H H.length)).count k
          = 1 :=
      fun k hk => count_forest H (parentOf pm recs) (isRootPtr pm recs) hch hpar hq hac k hk
    have hrootsne : recs ≠ [] → rootsFound pids read ≠ [] := by
      intro hn hr
      have hpos : 0 < H.length := by rw [hlen]; exact List.length_pos.mpr hn
      have := hcount 0 hpos
      rw [← hlen] at hR
      rw [← hR, hr] at this
      simp at this
    have hfr : f.roots = (List.range H.length).filter (isRootPtr pm recs) := by
      rw [hf', hlen, ← hR]
      by_cases hn : recs = []
      · simp [hn]
      · simp [hrootsne hn]
    have hfh : f.heap = H := by rw [hf']
    have hnodes : f.nodes.Perm (List.range H.length) := by
      rw [List.perm_iff_count]
      intro k
      unfold Forest.nodes
      rw [hfr, hfh]
      by_cases hk : k < H.length
      · rw [hcount k hk]
        exact (List.count_eq_one_of_mem (List.nodup_range _) (List.mem_range.mpr hk)).symm
      · rw [List.count_eq_zero_of_not_mem, List.count_eq_zero_of_not_mem]
        · simpa using hk
        · intro hmem
          obtain ⟨r, _, hr⟩ := List.mem_flatMap.mp hmem
          exact hk (mem_walk_lt H _ r k hr)
    have hpidsperm : f.pids.Perm (recs.map (·.PID)) := by
      unfold Forest.pids
      have h1 := hnodes.map (pidAt f.heap)
      refine h1.trans (List.Perm.of_eq ?_)
      rw [hfh]
      apply List.ext_getElem?
      intro i
      by_cases hi : i < H.length
      · have hi' : i < recs.length := hlen ▸ hi
        obtain ⟨pr0, h0, hpid, _⟩ := hheap i H[i] (List.getElem?_eq_getElem hi)
        rw [List.getElem?_map, List.getElem?_map, List.getElem?_range hi, h0]
        simp [pidAt, List.getElem?_eq_getElem hi, hpid]
      · rw [List.getElem?_eq_none (by simpa using hi),
          List.getElem?_eq_none (by simp; omega)]
    rw [hpidsperm.count_eq, ← hrecs, records_pids]
    have hndf : (pids.filter (fun p => (read p).isSome)).Nodup := hnd.filter _
    by_cases hm : pid ∈ pids ∧ (read pid).isSome = true
    · rw [if_pos hm]
      exact List.count_eq_one_of_mem hndf (List.mem_filter.mpr hm)
    · rw [if_neg hm]
      exact List.count_eq_zero_of_not_mem (fun h => hm (List.mem_filter.mp h))
  · intro c rc hc hcr
    have hfh : f.heap = H := by rw [hf']
    rw [hfh] at hc
    rw [hf'] at hcr
    simp only at hcr
    obtain ⟨pr0, h0, _, hparent, _, _, _⟩ := hheap c rc hc
    have hcl : c < recs.length := by
      by_contra hge
      rw [List.getElem?_eq_none (Nat.le_of_not_lt hge)] at h0
      simp at h0
    have hnotroot : isRootPtr pm recs c = false := by
      by_contra hroot
      have hroot' : isRootPtr pm recs c = true := by simpa using hroot
      have hcR : c ∈ rootsFound pids read := by
        rw [hR]; exact List.mem_filter.mpr ⟨List.mem_range.mpr hcl, hroot'⟩
      by_cases hcase : rootsFound pids read = [] ∧ recs ≠ []
      · rw [hcase.1] at hcR; simp at hcR
      · rw [if_neg hcase] at hcr; exact hcr hcR
    have hpc : ∃ p, parentOf pm recs c = some p := by
      simp only [isRootPtr, parentOf, h0] at hnotroot ⊢
      cases hp : pm pr0.Parent with
      | none => simp [hp] at hnotroot
      | some p => exact ⟨p, rfl⟩
    obtain ⟨p, hp⟩ := hpc
    have hpl : p < H.length := hpar c p hp
    obtain ⟨rp0, hp0, hppid, _, _, _, hpch⟩ := hheap p H[p] (List.getElem?_eq_getElem hpl)
    refine ⟨p, H[p], by rw [hfh]; exact List.getElem?_eq_getElem hpl, ?_, ?_, ?_⟩
    · rw [hppid, hparent]
      have := (parentOf_iff_isParentOf hmap c p).mp hp
      simp only [isParentOf, h0, hp0, decide_eq_true_eq] at this
      exact this.symm
    · rw [hpch, List.count_filter (by simpa using hp)]
      exact List.count_eq_one_of_mem (List.nodup_range _) (List.mem_range.mpr hcl)
    · intro q rq hq' hqp hmem
      rw [hfh] at hq'
      obtain ⟨_, _, _, _, _, _, hqch⟩ := hheap q rq hq'
      rw [hqch] at hmem
      have := (List.mem_filter.mp hmem).2
      simp only [decide_eq_true_eq, hp, Option.some.injEq] at this
      exact hqp this.symm

/-- C1 (counterexample): with membership pids 1 and 2, the read of pid 1 succeeding and the
read of pid 2 failing, a forest is returned in which pid 2 of the membership set occurs in
no node. -/
theorem C1_counterexample :
    ∃ f, GetServiceProcesses [1, 2] onlyFirstRead = .ok f ∧
      (2 : Int) ∈ [(1 : Int), 2] ∧ f.pids.count 2 = 0 :=
  ⟨{ heap := [{ PID := 1, Name := "a", Cmdline := "a", Parent := 0, Children := [] }],
     roots := [0] }, by decide, by decide, by decide⟩

/-- C1 (witness): the scenario 100 (parent 1), 101 (parent 100), 102 (parent 999) has
distinct pids and an acyclic parent relation; pid 101 occurs in exactly one node. -/
theorem C1_read_pids_once_in_forest_witness :
    ([100, 101, 102] : List Int).Nodup ∧
      Acyclic (records scenarioRead [100, 101, 102]) ∧
      GetServiceProcesses [100, 101, 102] scenarioRead = .ok scenarioForest ∧
      scenarioForest.pids.count 101 = 1 := by
  have h1 : ([100, 101, 102] : List Int).Nodup := by decide
  have h2 : Acyclic (records scenarioRead [100, 101, 102]) :=
    acyclic_of_rank _ (fun i => i) (by decide)
  have h3 : GetServiceProcesses [100, 101, 102] scenarioRead = .ok scenarioForest := by decide
  have h4 := (C1_read_pids_once_in_forest [100, 101, 102] scenarioRead h1 scenarioForest h3).1
    h2 101
  rw [if_pos (by decide)] at h4
  exact ⟨h1, h2, h3, h4⟩

/-- C2 (counterexample): a non-empty membership list whose only read fails makes
`GetServiceProcesses` succeed with an empty forest. -/
theorem C2_counterexample :
    ([7] : List Int) ≠ [] ∧
      GetServiceProcesses [7] noRead = .ok { heap := [], roots := [] } := by
  decide

/-- C2 (as amended): `GetServiceProcesses` fails with the no-processes-found error when the
membership pid list is empty; on every non-empty membership list it succeeds, and the forest
it returns has at least one root exactly when at least one per-pid read succeeded (it is
empty when every read failed). -/
theorem C2_error_iff_no_pids_roots_iff_some_read :
    (∀ read, GetServiceProcesses [] read =
      .error "service not running or no processes found") ∧
    (∀ pids read, pids ≠ [] → ∃ f, GetServiceProcesses pids read = .ok f ∧
      (f.roots ≠ [] ↔ ∃ pid ∈ pids, (read pid).isSome = true)) := by
  refine ⟨fun read => rfl, ?_⟩
  intro pids read hne
  refine ⟨_, gsp_eq read pids hne, ?_⟩
  have hrec : records read pids ≠ [] ↔ ∃ pid ∈ pids, (read pid).isSome = true := by
    rw [Ne, records_eq_nil_iff]
    push_neg
    constructor
    · rintro ⟨pid, hp, hr⟩
      exact ⟨pid, hp, Option.isSome_iff_ne_none.mpr hr⟩
    · rintro ⟨pid, hp, hr⟩
      exact ⟨pid, hp, Option.isSome_iff_ne_none.mp hr⟩
  rw [← hrec]
  obtain ⟨_, hroots, _⟩ := passes_result read pids
  have hR : rootsFound pids read = (List.range (records read pids).length).filter
      (isRootPtr (firstPass read pids BuildState.init).processMap (records read pids)) := hroots
  by_cases hn : records read pids = []
  · have : rootsFound pids read = [] := by rw [hR, hn]; rfl
    simp [hn, this]
  · by_cases hr : rootsFound pids read = []
    · simp [hn, hr]
    · simp [hn, hr]

/-- C2 (witness): the amended statement at the scenario's membership list. -/
theorem C2_error_iff_no_pids_roots_iff_some_read_witness :
    ([100, 101, 102] : List Int) ≠ [] ∧
      ∃ f, GetServiceProcesses [100, 101, 102] scenarioRead = .ok f ∧
        (f.roots ≠ [] ↔ ∃ pid ∈ ([100, 101, 102] : List Int),
          (scenarioRead pid).isSome = true) :=
  ⟨by decide, C2_error_iff_no_pids_roots_iff_some_read.2 [100, 101, 102] scenarioRead
    (by decide)⟩

/-- C3: for distinct pids, when at least one record that was read has a parent pid that is
not the pid of any such record, `GetServiceProcesses` returns exactly the reference forest
over the records in discovery order (roots: records whose parent pid is no record's pid;
children of a node: records whose parent pid is the node's pid). For the records
100 (parent 1), 101 (parent 100), 102 (parent 999) the forest is 100 with child 101,
followed by 102 without children. -/
theorem C3_forest_is_reference_forest :
    (∀ pids read, pids.Nodup →
      (∃ r ∈ records read pids, r.Parent ∉ (records read pids).map (·.PID)) →
      GetServiceProcesses pids read = .ok (referenceForest (records read pids))) ∧
    (GetServiceProcesses [100, 101, 102] scenarioRead = .ok scenarioForest ∧
      scenarioForest.outline = [(0, 100), (1, 101), (0, 102)]) := by
  refine ⟨?_, by decide, by decide⟩
  intro pids read hnd ⟨r, hr, hrp⟩
  have hne : pids ≠ [] := by
    intro h; subst h; simp [records] at hr
  rw [gsp_eq read pids hne]
  obtain ⟨hlen, hroots, -⟩ := passes_result read pids
  have hmap := mapOK_firstPass read pids hnd
  have hR : rootsFound pids read = (List.range (records read pids).length).filter
      (isRootPtr (firstPass read pids BuildState.init).processMap (records read pids)) := hroots
  have hsh := secondPass_heap (firstPass read pids BuildState.init).processMap
    (firstPass read pids BuildState.init).processes
    (firstPass read pids BuildState.init).heap []
  rw [firstPass_heap_init, firstPass_processes_init] at hsh
  rw [firstPass_heap_init, firstPass_processes_init]
  generalize hpm : (firstPass read pids BuildState.init).processMap = pm at *
  generalize hrecs : records read pids = recs at *
  have hnone : ∀ k, pm k = none ↔ k ∉ recs.map (·.PID) := by
    intro k
    constructor
    · intro hk hmem
      obtain ⟨x, hx, hxk⟩ := List.mem_map.mp hmem
      obtain ⟨i, hi, hix⟩ := List.getElem_of_mem hx
      have : pm k = some i := (hmap k i).mpr (by
        rw [List.getElem?_eq_getElem hi, hix]; simp [hxk])
      rw [hk] at this; exact absurd this (by simp)
    · intro hk
      cases hp : pm k with
      | none => rfl
      | some i =>
        exfalso
        have h := (hmap k i).mp hp
        cases hi : recs[i]? with
        | none => simp [hi] at h
        | some x =>
          rw [hi] at h
          simp only [Option.map_some', Option.some.injEq] at h
          exact hk (List.mem_map.mpr ⟨x, List.getElem?_mem hi, h⟩)
  have hrootseq : rootsFound pids read = (referenceForest recs).roots := by
    rw [hR]
    apply List.filter_congr
    intro j _
    unfold isRootPtr
    cases hj : recs[j]? with
    | none => rfl
    | some rj =>
      simp only
      by_cases hk : pm rj.Parent = none
      · have := (hnone _).mp hk
        simp [hk, this]
      · have hk' : ¬ rj.Parent ∉ recs.map (·.PID) := fun h => hk ((hnone _).mpr h)
        cases hp : pm rj.Parent with
        | none => exact absurd hp hk
        | some i =>
          simp only [Option.isSome_none, Option.isNone_some]
          exact (decide_eq_false hk').symm
  have hrne : rootsFound pids read ≠ [] := by
    rw [hR]
    intro hnil
    obtain ⟨i, hi, hir⟩ := List.getElem_of_mem hr
    have hmem : i ∈ (List.range recs.length).filter (isRootPtr pm recs) := by
      apply List.mem_filter.mpr
      refine ⟨List.mem_range.mpr hi, ?_⟩
      simp [isRootPtr, List.getElem?_eq_getElem hi, hir, (hnone _).mpr hrp]
    rw [hnil] at hmem
    simp at hmem
  simp only [hrne, false_and, if_false]
  congr 1
  have hheq : (secondPass pm (List.range recs.length) recs []).1 = (referenceForest recs).heap := by
    apply List.ext_getElem?
    intro i
    rw [hsh i]
    simp only [referenceForest, List.getElem?_map]
    cases hi : recs[i]? with
    | none => rfl
    | some ri =>
      have hci : ri.Children = [] := by
        rw [← hrecs] at hi
        exact records_children read pids i ri hi
      simp only [Option.map_some', Option.some.injEq, withChildren, hci, List.nil_append]
      congr 1
      apply List.filter_congr
      intro j _
      have h1 := parentOf_iff_isParentOf hmap j i
      by_cases hji : parentOf pm recs j = some i
      · have h2 := h1.mp hji
        simp only [isParentOf, hi] at h2
        cases hj : recs[j]? with
        | none => simp [hj] at h2
        | some rj =>
          simp only [hj, decide_eq_true_eq] at h2
          simp [hji, h2]
      · have h2 : ¬ isParentOf recs j i = true := fun h => hji (h1.mpr h)
        simp only [isParentOf, hi] at h2
        cases hj : recs[j]? with
        | none => simp [hji]
        | some rj =>
          simp only [hj, decide_eq_true_eq] at h2
          simp [hji, h2]
  rw [hheq, hrootseq]

/-- C3 (witness): the scenario has distinct pids and the record 100 has parent 1, which is
no record's pid; the result is the reference forest. -/
theorem C3_forest_is_reference_forest_witness :
    ([100, 101, 102] : List Int).Nodup ∧
      (∃ r ∈ records scenarioRead [100, 101, 102],
        r.Parent ∉ (records scenarioRead [100, 101, 102]).map (·.PID)) ∧
      GetServiceProcesses [100, 101, 102] scenarioRead =
        .ok (referenceForest (records scenarioRead [100, 101, 102])) :=
  have h1 : ([100, 101, 102] : List Int).Nodup := by decide
  have h2 : ∃ r ∈ records scenarioRead [100, 101, 102],
      r.Parent ∉ (records scenarioRead [100, 101, 102]).map (·.PID) :=
    ⟨mkProcess 100 { Name := "main", Cmdline := "/usr/bin/main", Parent := 1 },
      by decide, by decide⟩
  ⟨h1, h2, C3_forest_is_reference_forest.1 [100, 101, 102] scenarioRead h1 h2⟩

/-- C4 (counterexample): membership list [7] with the read failing: the root-finding pass
yields zero roots, the membership set is non-empty, and the returned forest has no element. -/
theorem C4_counterexample :
    ([7] : List Int) ≠ [] ∧ rootsFound [7] noRead = [] ∧
      ∃ f, GetServiceProcesses [7] noRead = .ok f ∧ f.roots.length = 0 :=
  ⟨by decide, by decide, { heap := [], roots := [] }, by decide, by decide⟩

/-- C4 (as amended): whenever at least one record was read and the root-finding pass yields
zero roots, `GetServiceProcesses` does not fail and returns a forest with exactly one
element, whose pid is that of the first pid of the membership list whose read succeeded. -/
theorem C4_fallback_first_read_process (pids : List Int) (read : Int → Option ProcStat)
    (hrec : records read pids ≠ []) (hzero : rootsFound pids read = []) :
    ∃ f pid0, GetServiceProcesses pids read = .ok f ∧ f.roots.length = 1 ∧
      pids.find? (fun p => (read p).isSome) = some pid0 ∧
      f.roots.map (pidAt f.heap) = [pid0] := by
  have hne : pids ≠ [] := by
    intro h; subst h; simp [records] at hrec
  obtain ⟨hlen, -, hheap⟩ := passes_result read pids
  have hpos : 0 < (records read pids).length := List.length_pos.mpr hrec
  have hfind : pids.find? (fun p => (read p).isSome) =
      some ((records read pids)[0]).PID := by
    rw [← List.filter_head?, ← records_pids, List.head?_map, List.head?_eq_getElem?,
      List.getElem?_eq_getElem hpos]
    rfl
  refine ⟨_, _, gsp_eq read pids hne, ?_, hfind, ?_⟩
  · simp [hzero, hrec]
  · simp only [hzero, hrec, ne_eq, not_false_eq_true, and_self, if_true, List.map_cons,
      List.map_nil, List.cons.injEq, and_true]
    have h0 : 0 < (secondPass (firstPass read pids BuildState.init).processMap
        (firstPass read pids BuildState.init).processes
        (firstPass read pids BuildState.init).heap []).1.length := by
      show 0 < (secondPass _ _ _ _).1.length
      exact hlen ▸ hpos
    obtain ⟨pr0, hp0, hpid, -⟩ := hheap 0 _ (List.getElem?_eq_getElem h0)
    rw [List.getElem?_eq_getElem hpos] at hp0
    simp only [Option.some.injEq] at hp0
    simp only [pidAt, List.getElem?_eq_getElem h0, hpid, hp0]

/-- C4 (witness): two records naming each other as parent give zero roots; the result is
the single first record, pid 1. -/
theorem C4_fallback_first_read_process_witness :
    records cycleRead [1, 2] ≠ [] ∧ rootsFound [1, 2] cycleRead = [] ∧
      ∃ f pid0, GetServiceProcesses [1, 2] cycleRead = .ok f ∧ f.roots.length = 1 ∧
        ([1, 2] : List Int).find? (fun p => (cycleRead p).isSome) = some pid0 ∧
        f.roots.map (pidAt f.heap) = [pid0] :=
  ⟨by decide, by decide,
    C4_fallback_first_read_process [1, 2] cycleRead (by decide) (by decide)⟩

/-! ### Journal history: claims C5 to C7 -/

theorem visible_congr (j j1 : Journal) (he : j1.entries = j.entries)
    (hm : j1.matchList = j.matchList) : j1.visible = j.visible := by
  simp [Journal.visible, he, hm]

theorem previous_visible (j : Journal) : j.Previous.1.visible = j.visible := by
  apply visible_congr <;>
  · unfold Journal.Previous
    simp only
    split
    · rfl
    · split
      · rfl
      · split <;> rfl
      · split <;> rfl

theorem next_visible (j : Journal) : j.Next.1.visible = j.visible := by
  apply visible_congr <;>
  · unfold Journal.Next
    simp only
    split
    · rfl
    · split
      · split <;> rfl
      · rfl
      · split <;> rfl

/-- A successful forward step makes the first of the remaining entries current. -/
theorem next_step (j : Journal) (n : Nat) (h : j.Next.2 = .ok n) (hn : n ≠ 0) :
    ∃ i e, j.Next.1.cursor = Cursor.pos i ∧ j.visible[i]? = some e ∧
      remaining j.visible j.cursor = e :: remaining j.visible (Cursor.pos i) := by
  unfold Journal.Next at h ⊢
  simp only at h ⊢
  split at h
  · simp at h
  · rename_i hne
    simp only [hne, Bool.false_eq_true, if_false]
    cases hc : j.cursor with
    | head =>
      simp only [hc] at h ⊢
      by_cases hl : j.visible.length = 0
      · simp [hl] at h; exact absurd h.symm hn
      · have hpos : 0 < j.visible.length := Nat.pos_of_ne_zero hl
        simp only [hl, if_false]
        refine ⟨0, j.visible[0], rfl, List.getElem?_eq_getElem hpos, ?_⟩
        simp only [remaining]
        exact (List.drop_eq_getElem_cons hpos).symm ▸ rfl
    | tail =>
      simp [hc] at h; exact absurd h.symm hn
    | pos i =>
      simp only [hc] at h ⊢
      by_cases hl : i + 1 < j.visible.length
      · simp only [hl, if_true]
        refine ⟨i + 1, j.visible[i + 1], rfl, List.getElem?_eq_getElem hl, ?_⟩
        simp only [remaining]
        exact List.drop_eq_getElem_cons hl
      · simp [hl] at h; exact absurd h.symm hn

theorem getEntry_on (j : Journal) (i : Nat) (e entry : JournalEntry)
    (hc : j.cursor = Cursor.pos i) (he : j.visible[i]? = some e)
    (h : j.GetEntry = .ok entry) : entry = e := by
  unfold Journal.GetEntry at h
  simp only [hc, he] at h
  split at h
  · exact (Except.ok.inj h).symm
  · simp at h

/-- The forward loop appends at most `k` entries, taken in order from the entries that
follow the read position. -/
theorem readForward_spec (k : Nat) (j : Journal) (logs : List LogEntry) :
    ∃ more, (readForward k j logs).2 = logs ++ more ∧ more.length ≤ k ∧
      List.Sublist more ((remaining j.visible j.cursor).map toLogEntry) := by
  induction k generalizing j logs with
  | zero => exact ⟨[], by simp [readForward], by simp, List.nil_sublist _⟩
  | succ k ih =>
    unfold readForward
    cases hnx : j.Next with
    | mk j1 r =>
      cases r with
      | error e => exact ⟨[], by simp, by simp, List.nil_sublist _⟩
      | ok n =>
        by_cases hn : n = 0
        · exact ⟨[], by simp [hn], by simp, List.nil_sublist _⟩
        · simp only [hn, if_false]
          have h2 : j.Next.2 = .ok n := by rw [hnx]
          obtain ⟨i, e, hcur, hget, hrem⟩ := next_step j n h2 hn
          have hvis : j1.visible = j.visible := by
            have := next_visible j; rw [hnx] at this; exact this
          have hcur1 : j1.cursor = Cursor.pos i := by rw [hnx] at hcur; exact hcur
          cases hge : j1.GetEntry with
          | error _ =>
            obtain ⟨more, h1, h2', h3⟩ := ih j1 logs
            refine ⟨more, h1, Nat.le_succ_of_le h2', ?_⟩
            rw [hrem, List.map_cons]
            rw [hvis, hcur1] at h3
            exact List.Sublist.cons _ h3
          | ok entry =>
            have hee : entry = e := getEntry_on j1 i e entry hcur1 (hvis ▸ hget) hge
            obtain ⟨more, h1, h2', h3⟩ := ih j1 (logs ++ [toLogEntry entry])
            refine ⟨toLogEntry entry :: more, ?_, ?_, ?_⟩
            · simp only [h1, List.append_assoc, List.singleton_append]
            · simp only [List.length_cons]; omega
            · rw [hrem, List.map_cons, hee]
              rw [hvis, hcur1] at h3
              exact List.Sublist.cons₂ _ h3

theorem seekBack_visible (k : Nat) (j : Journal) : (seekBack k j).visible = j.visible := by
  induction k generalizing j with
  | zero => rfl
  | succ k ih =>
    unfold seekBack
    have hp := previous_visible j
    cases hpv : j.Previous with
    | mk j1 r =>
      rw [hpv] at hp
      cases r with
      | error _ => exact hp
      | ok n =>
        by_cases hn : n = 0
        · simp only [hn, if_true]; exact hp
        · simp only [hn, if_false]; rw [ih j1]; exact hp

theorem remaining_sublist (vis : List JournalEntry) (c : Cursor) :
    List.Sublist (remaining vis c) vis := by
  cases c with
  | head => exact List.Sublist.refl _
  | pos i => exact List.drop_sublist _ _
  | tail => exact List.nil_sublist _

theorem visible_after_addMatch (j : Journal) (m : String) :
    ({ j with matchList := [m] } : Journal).visible =
      j.entries.filter (fun e => e.hasMatch m) := by
  simp [Journal.visible]

/-- With no `AddMatch` and no `SeekTail` error, `GetRecentLogs` returns the entries the
forward loop collected, over the entries of the service. -/
theorem getRecentLogs_ok (j : Journal) (svc : String) (count : Int)
    (ha : j.addMatchErr = false) (hs : j.seekTailErr = false) :
    ∃ j2 : Journal, j2.visible = j.matching svc ∧ j2.cursor = Cursor.tail ∧
      j2.navErrs = j.navErrs ∧
      (GetRecentLogs j svc count).1 =
        .ok (readForward count.toNat (seekBack count.toNat j2) []).2 := by
  refine ⟨{ j with matchList := ["_SYSTEMD_UNIT=" ++ svc], cursor := Cursor.tail }, ?_, rfl,
    rfl, ?_⟩
  · simp [Journal.visible, Journal.matching]
  · simp [GetRecentLogs, Journal.FlushMatches, Journal.AddMatch, Journal.SeekTail, ha, hs]

theorem getRecentLogs_error (j : Journal) (svc : String) (count : Int) (logs : List LogEntry)
    (h : (GetRecentLogs j svc count).1 = .ok logs) :
    j.addMatchErr = false ∧ j.seekTailErr = false := by
  cases ha : j.addMatchErr <;> cases hs : j.seekTailErr <;>
    simp [GetRecentLogs, Journal.FlushMatches, Journal.AddMatch, Journal.SeekTail, ha, hs] at h ⊢

/-- C5: for every journal, service and count N >= 0, a successful `GetRecentLogs` returns
at most N entries, and they are entries of the service in the order of the log (a sublist of
the log's entries, oldest first), so ascending timestamps in the log give ascending
timestamps in the result; the call succeeds whenever setting the filter and seeking to the
newest end do. -/
theorem C5_history_at_most_count_in_log_order :
    (∀ (j : Journal) (svc : String) (count : Int) (logs : List LogEntry), 0 ≤ count →
      (GetRecentLogs j svc count).1 = .ok logs →
        (logs.length : Int) ≤ count ∧
        List.Sublist logs ((j.matching svc).map toLogEntry) ∧
        (((j.matching svc).map toLogEntry).Pairwise (fun a b => a.Timestamp ≤ b.Timestamp) →
          logs.Pairwise (fun a b => a.Timestamp ≤ b.Timestamp))) ∧
    (∀ (j : Journal) (svc : String) (count : Int), j.addMatchErr = false →
      j.seekTailErr = false → ∃ logs, (GetRecentLogs j svc count).1 = .ok logs) := by
  constructor
  · intro j svc count logs hc h
    obtain ⟨ha, hs⟩ := getRecentLogs_error j svc count logs h
    obtain ⟨j2, hvis, -, -, heq⟩ := getRecentLogs_ok j svc count ha hs
    rw [heq] at h
    have hl := Except.ok.inj h
    obtain ⟨more, h1, h2, h3⟩ := readForward_spec count.toNat (seekBack count.toNat j2) []
    rw [List.nil_append] at h1
    rw [h1] at hl
    subst hl
    have hsub : List.Sublist more ((j.matching svc).map toLogEntry) := by
      rw [seekBack_visible, hvis] at h3
      exact h3.trans ((remaining_sublist _ _).map toLogEntry)
    refine ⟨?_, hsub, fun hp => hp.sublist hsub⟩
    have : ((count.toNat : Nat) : Int) = count := Int.toNat_of_nonneg hc
    omega
  · intro j svc count ha hs
    obtain ⟨j2, -, -, -, heq⟩ := getRecentLogs_ok j svc count ha hs
    exact ⟨_, heq⟩

/-- C5 (witness): two entries requested from the scenario journal. -/
theorem C5_history_at_most_count_in_log_order_witness :
    (0 : Int) ≤ 2 ∧
      (GetRecentLogs scenarioJournal "web.service" 2).1 =
        .ok [{ Timestamp := 3000000000, Message := "started", Priority := "info" }] ∧
      (([{ Timestamp := 3000000000, Message := "started", Priority := "info" }] :
          List LogEntry).length : Int) ≤ 2 ∧
      List.Sublist
        ([{ Timestamp := 3000000000, Message := "started", Priority := "info" }] : List LogEntry)
        ((scenarioJournal.matching "web.service").map toLogEntry) :=
  have h0 : (0 : Int) ≤ 2 := by decide
  have h1 : (GetRecentLogs scenarioJournal "web.service" 2).1 =
      .ok [{ Timestamp := 3000000000, Message := "started", Priority := "info" }] := by decide
  have h := C5_history_at_most_count_in_log_order.1 scenarioJournal "web.service" 2 _ h0 h1
  ⟨h0, h1, h.1, h.2.1⟩

/-- C6 (the code at the failing input): the scenario journal holds exactly three lines of
`web.service`, with severities error, warn, info. A request for 10 entries returns only the
last two of them, a request for 3 entries the same two, a request for 2 entries only the
newest one and a request for 1 entry none: the forward loop steps past the entry the
backward loop stopped on before it reads anything, so `min N L - 1` entries come back
instead of `min N L`. -/
theorem C6_history_skips_oldest_entry_of_window :
    (scenarioJournal.matching "web.service").map (fun e => (toLogEntry e).Priority) =
        ["error", "warn", "info"] ∧
      (GetRecentLogs scenarioJournal "web.service" 10).1 =
        .ok [{ Timestamp := 2000000000, Message := "slow request", Priority := "warn" },
             { Timestamp := 3000000000, Message := "started", Priority := "info" }] ∧
      (GetRecentLogs scenarioJournal "web.service" 3).1 =
        .ok [{ Timestamp := 2000000000, Message := "slow request", Priority := "warn" },
             { Timestamp := 3000000000, Message := "started", Priority := "info" }] ∧
      (GetRecentLogs scenarioJournal "web.service" 2).1 =
        .ok [{ Timestamp := 3000000000, Message := "started", Priority := "info" }] ∧
      (GetRecentLogs scenarioJournal "web.service" 1).1 = .ok [] := by
  refine ⟨by decide, by decide, by decide, by decide, by decide⟩

/-- C7: the severity mapping of `GetRecentLogs` is total with values error, warn, info; a
string that `Atoi` parses to `p` maps to error for `p <= 3`, to warn for `p = 4`, to info for
`p >= 5`; a string that does not parse maps to info; the digits 0..7 parse to themselves. -/
theorem C7_severity_mapping :
    (∀ s, severity s = "error" ∨ severity s = "warn" ∨ severity s = "info") ∧
    (∀ s p, Atoi s = some p →
      (p ≤ 3 → severity s = "error") ∧ (p = 4 → severity s = "warn") ∧
      (5 ≤ p → severity s = "info")) ∧
    (∀ s, Atoi s = none → severity s = "info") ∧
    (["0", "1", "2", "3", "4", "5", "6", "7"].map Atoi =
        [some 0, some 1, some 2, some 3, some 4, some 5, some 6, some 7] ∧
      ["0", "1", "2", "3", "4", "5", "6", "7", "", "x", "3.5", "emerg"].map severity =
        ["error", "error", "error", "error", "warn", "info", "info", "info",
         "info", "info", "info", "info"]) := by
  refine ⟨?_, ?_, ?_, by decide, by decide⟩
  · intro s
    unfold severity
    cases Atoi s with
    | none => simp
    | some p =>
      by_cases h3 : p ≤ 3
      · simp [h3]
      · by_cases h4 : p ≤ 4 <;> simp [h3, h4]
  · intro s p h
    unfold severity
    rw [h]
    refine ⟨fun h3 => by simp [h3], fun h4 => ?_, fun h5 => ?_⟩
    · subst h4; decide
    · have h3 : ¬ p ≤ 3 := by omega
      have h4 : ¬ p ≤ 4 := by omega
      simp [h3, h4]
  · intro s h
    unfold severity
    rw [h]

/-- C7 (witness): the string "3" parses to 3 and maps to error. -/
theorem C7_severity_mapping_witness :
    Atoi "3" = some 3 ∧ (3 : Int) ≤ 3 ∧ severity "3" = "error" :=
  have h : Atoi "3" = some 3 := by decide
  ⟨h, by decide, (C7_severity_mapping.2.1 "3" 3 h).1 (by decide)⟩

/-- The backward loop from entry `i`, without errors, stops on entry `i - min k i`. -/
theorem seekBack_pos (k : Nat) (j : Journal) (i : Nat) (hc : j.cursor = Cursor.pos i)
    (hn : j.navErrs = []) :
    (seekBack k j).cursor = Cursor.pos (i - min k i) ∧ (seekBack k j).navErrs = [] := by
  induction k generalizing j i with
  | zero => simp [seekBack, hc, hn]
  | succ k ih =>
    unfold seekBack
    by_cases hi : i = 0
    · subst hi
      simp [Journal.Previous, hn, hc]
    · have hp : j.Previous =
          ({ j with navErrs := [], cursor := Cursor.pos (i - 1) }, .ok 1) := by
        simp [Journal.Previous, hn, hc, hi]
      rw [hp]
      simp only [Nat.one_ne_zero, if_false]
      obtain ⟨h1, h2⟩ := ih { j with navErrs := [], cursor := Cursor.pos (i - 1) } (i - 1)
        rfl rfl
      refine ⟨?_, h2⟩
      rw [h1]
      congr 1
      omega

/-- The backward loop from the newest end, without errors and with at least one step and at
least one entry, stops on the entry `min k L` places before the end. -/
theorem seekBack_tail (k : Nat) (j : Journal) (hc : j.cursor = Cursor.tail)
    (hn : j.navErrs = []) (hk : 1 ≤ k) (hl : 1 ≤ j.visible.length) :
    (seekBack k j).cursor = Cursor.pos (j.visible.length - min k j.visible.length) ∧
      (seekBack k j).navErrs = [] := by
  obtain ⟨k', rfl⟩ : ∃ k', k = k' + 1 := ⟨k - 1, by omega⟩
  unfold seekBack
  have hl0 : ¬ j.visible.length = 0 := by omega
  have hp : j.Previous =
      ({ j with navErrs := [], cursor := Cursor.pos (j.visible.length - 1) }, .ok 1) := by
    simp [Journal.Previous, hn, hc, hl0]
  rw [hp]
  simp only [Nat.one_ne_zero, if_false]
  obtain ⟨h1, h2⟩ := seekBack_pos k'
    { j with navErrs := [], cursor := Cursor.pos (j.visible.length - 1) }
    (j.visible.length - 1) rfl rfl
  refine ⟨?_, h2⟩
  rw [h1]
  congr 1
  omega

/-- The forward loop from entry `p`, without errors and with every entry readable, appends
the next `k` entries after `p` (fewer when the log ends). -/
theorem readForward_pos (k : Nat) (j : Journal) (logs : List LogEntry) (p : Nat)
    (hc : j.cursor = Cursor.pos p) (hn : j.navErrs = [])
    (hr : ∀ e ∈ j.visible, e.readable = true) :
    (readForward k j logs).2 = logs ++ ((j.visible.drop (p + 1)).take k).map toLogEntry := by
  induction k generalizing j logs p with
  | zero => simp [readForward]
  | succ k ih =>
    unfold readForward
    by_cases hl : p + 1 < j.visible.length
    · have hnx : j.Next =
          ({ j with navErrs := [], cursor := Cursor.pos (p + 1) }, .ok 1) := by
        simp [Journal.Next, hn, hc, hl]
      have hvis : ({ j with navErrs := [], cursor := Cursor.pos (p + 1) } : Journal).visible =
          j.visible := rfl
      have hge : ({ j with navErrs := [], cursor := Cursor.pos (p + 1) } : Journal).GetEntry =
          .ok j.visible[p + 1] := by
        have hre := hr j.visible[p + 1] (List.getElem_mem hl)
        simp [Journal.GetEntry, hvis, List.getElem?_eq_getElem hl, hre]
      rw [hnx]
      simp only [Nat.one_ne_zero, if_false, hge]
      rw [ih _ _ (p + 1) rfl rfl (by rw [hvis]; exact hr), hvis]
      rw [List.drop_eq_getElem_cons hl, List.take_succ_cons, List.map_cons]
      simp
    · have hnx : j.Next = ({ j with navErrs := [] }, .ok 0) := by
        simp [Journal.Next, hn, hc, hl]
      rw [hnx]
      have hd : j.visible.drop (p + 1) = [] := List.drop_of_length_le (by omega)
      simp [hd]

/-- What `GetRecentLogs` returns on a journal without errors whose entries of the service
are all readable, for a count of at least 1: the service's entries from position
`L - min N L + 1` on, that is the `min N L - 1` newest ones, where `L` is their number. -/
theorem getRecentLogs_window (j : Journal) (svc : String) (count : Int)
    (ha : j.addMatchErr = false) (hs : j.seekTailErr = false) (hn : j.navErrs = [])
    (hr : ∀ e ∈ j.matching svc, e.readable = true) (hc : 1 ≤ count) :
    (GetRecentLogs j svc count).1 =
      .ok (((j.matching svc).drop
        ((j.matching svc).length - min count.toNat (j.matching svc).length + 1)).map
          toLogEntry) := by
  obtain ⟨j2, hvis, hcur, hnav, heq⟩ := getRecentLogs_ok j svc count ha hs
  rw [heq]
  congr 1
  have hk : 1 ≤ count.toNat := by omega
  have hn2 : j2.navErrs = [] := by rw [hnav, hn]
  by_cases hl : j2.visible.length = 0
  · have hnil : j.matching svc = [] := by
      rw [← hvis]; exact List.length_eq_zero.mp hl
    obtain ⟨k', hk'⟩ : ∃ k', count.toNat = k' + 1 := ⟨count.toNat - 1, by omega⟩
    have hp : j2.Previous = ({ j2 with navErrs := [] }, .ok 0) := by
      simp [Journal.Previous, hn2, hcur, hl]
    have hnx : ({ j2 with navErrs := [] } : Journal).Next =
        ({ j2 with navErrs := [] }, .ok 0) := by
      simp [Journal.Next, hcur]
    rw [hk', hnil]
    simp [seekBack, readForward, hp, hnx]
  · have hl1 : 1 ≤ j2.visible.length := by omega
    obtain ⟨h1, h2⟩ := seekBack_tail count.toNat j2 hcur hn2 hk hl1
    have hv : (seekBack count.toNat j2).visible = j.matching svc := by
      rw [seekBack_visible, hvis]
    rw [readForward_pos count.toNat (seekBack count.toNat j2) []
      (j2.visible.length - min count.toNat j2.visible.length) h1 h2
      (by rw [hv]; exact hr)]
    rw [hv, hvis, List.nil_append]
    congr 1
    apply List.take_of_length_le
    rw [List.length_drop]
    omega

/-! ### UI state machine: claims C8 to C10 -/

theorem renderEach_congr (f g : Ptr → Option (List Ptr)) (ps : List Ptr)
    (h : ∀ p ∈ ps, f p = g p) : renderEach f ps = renderEach g ps := by
  induction ps with
  | nil => rfl
  | cons p rest ih =>
    have hp : f p = g p := h p (List.mem_cons_self _ _)
    have hr : renderEach f rest = renderEach g rest :=
      ih (fun q hq => h q (List.mem_cons_of_mem _ hq))
    simp only [renderEach, hp, hr]

theorem renderEach_some (f : Ptr → Option (List Ptr)) (ps printed : List Ptr)
    (h : renderEach f ps = some printed) : ∀ p ∈ ps, ∃ l, f p = some l := by
  induction ps generalizing printed with
  | nil => intro p hp; simp at hp
  | cons q rest ih =>
    intro p hp
    simp only [renderEach] at h
    cases hq : f q with
    | none => simp [hq] at h
    | some l =>
      cases hr : renderEach f rest with
      | none => simp [hq, hr] at h
      | some more =>
        rcases List.mem_cons.mp hp with rfl | hp'
        · exact ⟨l, hq⟩
        · exact ih more hr p hp'

/-- A call of `renderProcess` that returns within some nesting depth returns the same within
every larger one: the bound only cuts off calls that have not returned yet. -/
theorem renderProcess_mono (heap : Heap) (d : Nat) (p : Ptr) (l : List Ptr)
    (h : renderProcess heap d p = some l) :
    renderProcess heap (d + 1) p = some l := by
  induction d generalizing p l with
  | zero => simp [renderProcess] at h
  | succ d ih =>
    simp only [renderProcess] at h ⊢
    cases hp : heap[p]? with
    | none => simp [hp] at h
    | some pr =>
      simp only [hp] at h ⊢
      cases hc : renderEach (renderProcess heap d) pr.Children with
      | none => simp [hc] at h
      | some printed =>
        have hsame : renderEach (renderProcess heap (d + 1)) pr.Children =
            renderEach (renderProcess heap d) pr.Children := by
          apply renderEach_congr
          intro c hcm
          obtain ⟨lc, hlc⟩ := renderEach_some _ _ _ hc c hcm
          rw [hlc]
          exact ih c lc hlc
        simp only [renderProcess] at hsame
        rw [hsame, hc]
        simpa [hc] using h

/-- C8 (counterexample): service A is selected and its history load and forest build are
requested; B is selected before the results arrive. The current service is B and its log
buffer is empty, yet the arrival of A's history replaces the log buffer and the displayed
content with A's entries, and the arrival of A's forest replaces the process forest and the
displayed content with A's processes. -/
theorem C8_counterexample :
    modelA.currentService = "web.service" ∧
      logsMsgA = Msg.logsLoaded logsOfA ∧
      processesMsgA = Msg.processesLoaded scenarioForest ∧
      modelB.currentService = "db.service" ∧ modelB.logs = [] ∧
      (Update idleWidgets modelB logsMsgA).map (fun r => r.1.logs) = some logsOfA ∧
      (Update idleWidgets modelB logsMsgA).map (fun r => r.1.logViewport.content) =
        some (Screen.logLines logsOfA) ∧
      (Update idleWidgets modelB logsMsgA).map (fun r => r.1.logs) ≠ some modelB.logs ∧
      (Update idleWidgets modelB processesMsgA).map (fun r => r.1.processes) =
        some scenarioForest ∧
      (Update idleWidgets modelB processesMsgA).map (fun r => r.1.logViewport.content) =
        some (Screen.processTree "db.service" scenarioForest) ∧
      (Update idleWidgets modelB processesMsgA).map (fun r => r.1.processes) ≠
        some modelB.processes := by
  refine ⟨by decide, by decide, by decide, by decide, by decide, by decide, by decide,
    by decide, by decide, by decide, by decide⟩

/-- C8 (as amended): asynchronous results carry no service tag and are applied whichever
service they were produced for. In log view a `logsLoadedMsg` replaces the log buffer and the
displayed content with its payload; a `processesLoadedMsg` whose forest can be rendered (the
recursion of `renderProcess` over its child pointers ends) replaces the process forest and
the displayed content with its payload, in either view; neither changes the current service.
Only a `logsLoadedMsg` that arrives in process-tree view is discarded, leaving every field of
the state unchanged. -/
theorem C8_results_applied_whatever_the_service (w : Widgets) (m : Model) :
    (∀ logs, m.showProcessTree = true →
      Update w m (Msg.logsLoaded logs) = some (m, Cmd.none)) ∧
    (∀ logs, m.showProcessTree = false →
      ∃ m', Update w m (Msg.logsLoaded logs) = some (m', Cmd.none) ∧
        m'.logs = logs ∧ m'.logViewport.content = formatLogs m' ∧
        m'.processes = m.processes ∧ m'.currentService = m.currentService) ∧
    (∀ processes, (renderForest processes).isSome = true →
      ∃ m', Update w m (Msg.processesLoaded processes) = some (m', Cmd.none) ∧
        m'.processes = processes ∧ formatProcessTree m' = some m'.logViewport.content ∧
        m'.logViewport.content =
          (if processes.roots.length = 0 then
            Screen.noProcesses m.currentService m.logViewport.Width m.logViewport.Height
           else Screen.processTree m.currentService processes) ∧
        m'.logs = m.logs ∧ m'.currentService = m.currentService) := by
  refine ⟨?_, ?_, ?_⟩
  · intro logs h
    simp [Update, h]
  · intro logs h
    refine ⟨{ m with logs := logs, logViewport :=
        { m.logViewport with content := formatLogs { m with logs := logs },
                             scroll := Scroll.bottom } }, ?_, rfl, ?_, rfl, rfl⟩
    · simp [Update, h]
    · simp [formatLogs]
  · intro processes h
    by_cases hr : processes.roots.length = 0
    · refine ⟨{ m with processes := processes, logViewport :=
          { m.logViewport with
              content := Screen.noProcesses m.currentService m.logViewport.Width
                m.logViewport.Height,
              scroll := Scroll.top } }, ?_, rfl, ?_, ?_, rfl, rfl⟩
      · simp [Update, formatProcessTree, hr]
      · simp [formatProcessTree, hr]
      · simp [hr]
    · obtain ⟨printed, hp⟩ := Option.isSome_iff_exists.mp h
      refine ⟨{ m with processes := processes, logViewport :=
          { m.logViewport with content := Screen.processTree m.currentService processes,
                               scroll := Scroll.top } }, ?_, rfl, ?_, ?_, rfl, rfl⟩
      · simp [Update, formatProcessTree, hr, hp]
      · simp [formatProcessTree, hr, hp]
      · simp [hr]

/-- C8 (witness): in the process-tree view of service A the late history of A is discarded;
in the log view of service B it is applied, and so is the forest of A, which can be
rendered. -/
theorem C8_results_applied_whatever_the_service_witness :
    modelATreeShown.showProcessTree = true ∧
      Update idleWidgets modelATreeShown (Msg.logsLoaded logsOfA) =
        some (modelATreeShown, Cmd.none) ∧
      modelB.showProcessTree = false ∧
      (∃ m', Update idleWidgets modelB (Msg.logsLoaded logsOfA) = some (m', Cmd.none) ∧
        m'.logs = logsOfA) ∧
      (renderForest scenarioForest).isSome = true ∧
      (∃ m', Update idleWidgets modelB (Msg.processesLoaded scenarioForest) =
          some (m', Cmd.none) ∧ m'.processes = scenarioForest) :=
  have h1 : modelATreeShown.showProcessTree = true := by decide
  have h2 : modelB.showProcessTree = false := by decide
  have h3 : (renderForest scenarioForest).isSome = true := by decide
  have h4 := (C8_results_applied_whatever_the_service idleWidgets modelB).2.1 logsOfA h2
  have h5 := (C8_results_applied_whatever_the_service idleWidgets modelB).2.2 scenarioForest h3
  ⟨h1, (C8_results_applied_whatever_the_service idleWidgets modelATreeShown).1 logsOfA h1,
    h2, h4.elim (fun m' hm => ⟨m', hm.1, hm.2.1⟩), h3,
    h5.elim (fun m' hm => ⟨m', hm.1, hm.2.1⟩)⟩

/-- C9 (the code at the failing input): the model is in process-tree view of service A with
A's forest shown, and B is selected with the enter key. The previous cancel function is
invoked, the current service becomes B, the log buffer is emptied and a history load is
requested; but the view mode stays ProcessTree and the process buffer still holds A's
forest, so B's history is discarded when it arrives and A's tree stays on display. -/
theorem C9_select_keeps_process_tree_view :
    modelATreeShown.currentService = "web.service" ∧
      modelATreeShown.showProcessTree = true ∧
      modelATreeShown.processes = scenarioForest ∧
      modelATreeShown.logCancel = some 0 ∧
      (cursorOnSecond modelATreeShown).serviceList.SelectedItem.map (·.Name) =
        some "db.service" ∧
      Update idleWidgets (cursorOnSecond modelATreeShown) (Msg.key "enter") =
        some (selectService (cursorOnSecond modelATreeShown) "db.service") ∧
      (selectService (cursorOnSecond modelATreeShown) "db.service").2 = Cmd.refreshLogs ∧
      (selectService (cursorOnSecond modelATreeShown) "db.service").1.cancelCalls = [0] ∧
      (selectService (cursorOnSecond modelATreeShown) "db.service").1.currentService =
        "db.service" ∧
      (selectService (cursorOnSecond modelATreeShown) "db.service").1.logs = [] ∧
      (selectService (cursorOnSecond modelATreeShown) "db.service").1.showProcessTree = true ∧
      (selectService (cursorOnSecond modelATreeShown) "db.service").1.processes =
        scenarioForest ∧
      (selectService (cursorOnSecond modelATreeShown) "db.service").1.logViewport.content =
        Screen.processTree "web.service" scenarioForest ∧
      Update idleWidgets (selectService (cursorOnSecond modelATreeShown) "db.service").1
          (Msg.logsLoaded logsOfA) =
        some ((selectService (cursorOnSecond modelATreeShown) "db.service").1, Cmd.none) := by
  refine ⟨by decide, by decide, by decide, by decide, by decide, rfl, rfl, by decide, by decide,
    by decide, by decide, by decide, by decide, rfl⟩

/-- C10 (counterexample): in process-tree view of the selected service A, key `p` switches
the view mode back to Logs. -/
theorem C10_counterexample :
    modelATreeShown.currentService = "web.service" ∧
      modelATreeShown.showProcessTree = true ∧
      (Update idleWidgets modelATreeShown (Msg.key "p")).map (fun r => r.1.showProcessTree) =
        some false := by
  refine ⟨by decide, by decide, by decide⟩

/-- C10 (as amended): with a service selected and the model in process-tree view, key `p`
is a toggle: it switches the view mode back to Logs, issues no request and leaves every
other field of the state unchanged, exactly as the return-to-logs key `l` does. -/
theorem C10_p_toggles_back_to_logs (w : Widgets) (m : Model)
    (hsel : m.currentService ≠ "") (htree : m.showProcessTree = true) :
    Update w m (Msg.key "p") = some ({ m with showProcessTree := false }, Cmd.none) ∧
      Update w m (Msg.key "l") = some ({ m with showProcessTree := false }, Cmd.none) := by
  constructor
  · simp [Update, updateKey, hsel, htree]
  · simp [Update, updateKey, htree]

/-- C10 (witness): the amended statement in the process-tree view of service A. -/
theorem C10_p_toggles_back_to_logs_witness :
    modelATreeShown.currentService ≠ "" ∧ modelATreeShown.showProcessTree = true ∧
      Update idleWidgets modelATreeShown (Msg.key "p") =
        some ({ modelATreeShown with showProcessTree := false }, Cmd.none) :=
  have h1 : modelATreeShown.currentService ≠ "" := by decide
  have h2 : modelATreeShown.showProcessTree = true := by decide
  ⟨h1, h2, (C10_p_toggles_back_to_logs idleWidgets modelATreeShown h1 h2).1⟩

/-! ### UI state machine: claims C11 to C16 -/

/-- C11: with a service selected and the model in log view, key `p` switches to
process-tree view and issues exactly one request, the forest build; a second key `p` right
after it issues no request at all (it returns to the state before the first one). -/
theorem C11_second_toggle_issues_no_forest_build (w : Widgets) (m : Model)
    (hsel : m.currentService ≠ "") (hlog : m.showProcessTree = false) :
    Update w m (Msg.key "p") =
        some ({ m with showProcessTree := true }, Cmd.loadProcessTree) ∧
      Update w { m with showProcessTree := true } (Msg.key "p") = some (m, Cmd.none) := by
  have h1 : Update w m (Msg.key "p") =
      some ({ m with showProcessTree := true }, Cmd.loadProcessTree) := by
    simp [Update, updateKey, hsel, hlog]
  refine ⟨h1, ?_⟩
  cases m
  simp only at hsel hlog
  subst hlog
  simp [Update, updateKey, hsel]

/-- C11 (witness): service A selected, log view. -/
theorem C11_second_toggle_issues_no_forest_build_witness :
    modelA.currentService ≠ "" ∧ modelA.showProcessTree = false ∧
      Update idleWidgets modelA (Msg.key "p") =
        some ({ modelA with showProcessTree := true }, Cmd.loadProcessTree) ∧
      Update idleWidgets { modelA with showProcessTree := true } (Msg.key "p") =
        some (modelA, Cmd.none) :=
  have h1 : modelA.currentService ≠ "" := by decide
  have h2 : modelA.showProcessTree = false := by decide
  ⟨h1, h2, C11_second_toggle_issues_no_forest_build idleWidgets modelA h1 h2⟩

/-- C12: a periodic tick changes no field of the state and always reschedules the next
tick; the command is the batch of the next tick and a history reload when a service is
selected and the view mode is Logs, and the next tick alone otherwise (process-tree view or
no selection). -/
theorem C12_tick_reloads_only_in_log_view (w : Widgets) (m : Model) :
    (Update w m Msg.tick).map (fun r => r.1) = some m ∧
      (m.currentService ≠ "" ∧ m.showProcessTree = false →
        Update w m Msg.tick = some (m, Cmd.batch [Cmd.tick, Cmd.refreshLogs])) ∧
      (m.currentService = "" ∨ m.showProcessTree = true →
        Update w m Msg.tick = some (m, Cmd.tick)) ∧
      (Update w m Msg.tick = some (m, Cmd.batch [Cmd.tick, Cmd.refreshLogs]) ↔
        (m.currentService ≠ "" ∧ m.showProcessTree = false)) := by
  by_cases hc : m.currentService = "" <;> cases hs : m.showProcessTree <;>
    simp [Update, hc, hs]

/-- C12 (witness): in log view of service A the tick requests a reload, in process-tree
view of A it only reschedules itself. -/
theorem C12_tick_reloads_only_in_log_view_witness :
    (modelA.currentService ≠ "" ∧ modelA.showProcessTree = false) ∧
      Update idleWidgets modelA Msg.tick =
        some (modelA, Cmd.batch [Cmd.tick, Cmd.refreshLogs]) ∧
      (modelATreeShown.currentService = "" ∨ modelATreeShown.showProcessTree = true) ∧
      Update idleWidgets modelATreeShown Msg.tick = some (modelATreeShown, Cmd.tick) :=
  have h1 : modelA.currentService ≠ "" ∧ modelA.showProcessTree = false := by decide
  have h2 : modelATreeShown.currentService = "" ∨ modelATreeShown.showProcessTree = true := by
    decide
  ⟨h1, (C12_tick_reloads_only_in_log_view idleWidgets modelA).2.1 h1, h2,
    (C12_tick_reloads_only_in_log_view idleWidgets modelATreeShown).2.2.1 h2⟩

/-- C13 (counterexample): in process-tree view of service A with A's forest on display, key
`l` switches the view mode to Logs, but what is displayed is still the rendering of the
process tree, not the rendering of the log buffer. -/
theorem C13_counterexample :
    modelATreeShown.showProcessTree = true ∧
      (Update idleWidgets modelATreeShown (Msg.key "l")).map
          (fun r => r.1.showProcessTree) = some false ∧
      (Update idleWidgets modelATreeShown (Msg.key "l")).map
          (fun r => r.1.logViewport.content) =
        some (Screen.processTree "web.service" scenarioForest) ∧
      (Update idleWidgets modelATreeShown (Msg.key "l")).map
          (fun r => r.1.logViewport.content) ≠
        (Update idleWidgets modelATreeShown (Msg.key "l")).map (fun r => formatLogs r.1) := by
  refine ⟨by decide, by decide, by decide, by decide⟩

/-- C13 (as amended): in process-tree view, key `l` switches the view mode to Logs, issues
no request and leaves every other field of the state unchanged, in particular the current
service, the log buffer and the displayed content: what is shown stays what was rendered
last, until the result of the next history reload arrives and replaces it with the rendering
of the log buffer. -/
theorem C13_return_to_logs_keeps_content (w : Widgets) (m : Model)
    (htree : m.showProcessTree = true) :
    Update w m (Msg.key "l") = some ({ m with showProcessTree := false }, Cmd.none) ∧
      ({ m with showProcessTree := false } : Model).currentService = m.currentService ∧
      ({ m with showProcessTree := false } : Model).logs = m.logs ∧
      ({ m with showProcessTree := false } : Model).logViewport.content =
        m.logViewport.content ∧
      (∀ logs, ∃ m', Update w { m with showProcessTree := false } (Msg.logsLoaded logs) =
          some (m', Cmd.none) ∧
        m'.logs = logs ∧ m'.logViewport.content = formatLogs m') := by
  have h1 : Update w m (Msg.key "l") =
      some ({ m with showProcessTree := false }, Cmd.none) := by
    simp [Update, updateKey, htree]
  refine ⟨h1, rfl, rfl, rfl, ?_⟩
  intro logs
  refine ⟨{ m with showProcessTree := false, logs := logs, logViewport :=
      { m.logViewport with
          content := formatLogs { m with showProcessTree := false, logs := logs },
          scroll := Scroll.bottom } }, ?_, rfl, ?_⟩
  · simp [Update]
  · simp [formatLogs]

/-- C13 (witness): the amended statement in the process-tree view of service A. -/
theorem C13_return_to_logs_keeps_content_witness :
    modelATreeShown.showProcessTree = true ∧
      Update idleWidgets modelATreeShown (Msg.key "l") =
        some ({ modelATreeShown with showProcessTree := false }, Cmd.none) ∧
      ({ modelATreeShown with showProcessTree := false } : Model).logViewport.content =
        modelATreeShown.logViewport.content :=
  have h : modelATreeShown.showProcessTree = true := by decide
  ⟨h, (C13_return_to_logs_keeps_content idleWidgets modelATreeShown h).1,
    (C13_return_to_logs_keeps_content idleWidgets modelATreeShown h).2.2.2.1⟩

/-- C14: for each lifecycle command (keys `r`, `s`, `t`, `e`, `d`): with a service selected
the key dispatches the command and changes no field of the state; the result of the command
is a status message or an error message; a status message sets only the status slot (and
starts the timer that clears it), an error message sets only the error slot, so neither
changes the current service or the view mode; with no service selected the key dispatches
nothing but the widgets' own commands and changes neither the current service nor the view
mode. -/
theorem C14_lifecycle_keeps_service_and_view (w : Widgets) (m : Model) (a : Lifecycle) :
    (m.currentService ≠ "" → Update w m (Msg.key a.key) = some (m, a.cmd)) ∧
      (∀ (mgr : Manager) (m0 : Model),
        (∃ t, lifecycleMsg mgr m0 a = Msg.status t) ∨
          (∃ t, lifecycleMsg mgr m0 a = Msg.error t)) ∧
      (∀ t, Update w m (Msg.status t) =
        some ({ m with statusMsg := t }, Cmd.clearStatusLater)) ∧
      (∀ t, Update w m (Msg.error t) = some ({ m with errMsg := t }, Cmd.none)) ∧
      (m.currentService = "" →
        ∃ m', Update w m (Msg.key a.key) = some (m', Cmd.batch [Cmd.widget, Cmd.widget]) ∧
          m'.currentService = m.currentService ∧
          m'.showProcessTree = m.showProcessTree) := by
  refine ⟨?_, ?_, ?_, ?_, ?_⟩
  · intro h
    cases a <;> simp [Update, updateKey, Lifecycle.key, Lifecycle.cmd, h]
  · intro mgr m0
    cases a
    · simp only [lifecycleMsg]
      cases mgr.RestartService m0.currentService <;> simp
    · simp only [lifecycleMsg]
      cases mgr.StopService m0.currentService <;> simp
    · simp only [lifecycleMsg]
      cases mgr.StartService m0.currentService <;> simp
    · simp only [lifecycleMsg]
      cases mgr.EnableService m0.currentService <;> simp
    · simp only [lifecycleMsg]
      cases mgr.DisableService m0.currentService <;> simp
  · intro t; rfl
  · intro t; rfl
  · intro h
    refine ⟨(updateWidgets w m (Msg.key a.key)).1, ?_, rfl, rfl⟩
    cases a <;> simp [Update, updateKey, updateWidgets, Lifecycle.key, h]

/-- C14 (witness): restart with service A selected; restart key with nothing selected. -/
theorem C14_lifecycle_keeps_service_and_view_witness :
    modelA.currentService ≠ "" ∧
      Update idleWidgets modelA (Msg.key "r") = some (modelA, Cmd.restartService) ∧
      lifecycleMsg okManager modelA Lifecycle.restart =
        Msg.status "Restarting web.service..." ∧
      readyModel.currentService = "" ∧
      (∃ m', Update idleWidgets readyModel (Msg.key "r") =
          some (m', Cmd.batch [Cmd.widget, Cmd.widget]) ∧
        m'.currentService = readyModel.currentService) :=
  have h1 : modelA.currentService ≠ "" := by decide
  have h2 : readyModel.currentService = "" := by decide
  ⟨h1, (C14_lifecycle_keeps_service_and_view idleWidgets modelA Lifecycle.restart).1 h1,
    by decide, h2,
    ((C14_lifecycle_keeps_service_and_view idleWidgets readyModel Lifecycle.restart).2.2.2.2
      h2).elim (fun m' hm => ⟨m', hm.1, hm.2.1⟩)⟩

/-- C15: a failed history load and a failed forest build come back as an error message, and
the arrival of an error message sets only the error slot: the log buffer, the process
forest, the current service, the view mode and every other field are unchanged, and no
request is issued. -/
theorem C15_error_sets_only_error_slot :
    (∀ (w : Widgets) (m : Model) (text : String),
      Update w m (Msg.error text) = some ({ m with errMsg := text }, Cmd.none)) ∧
    (∀ (world : World) (m0 : Model) (e : String),
      (GetRecentLogs world.journal m0.currentService 100).1 = .error e →
      refreshLogsMsg world m0 = Msg.error ("Failed to read logs: " ++ e)) ∧
    (∀ (world : World) (m0 : Model) (e : String),
      GetServiceProcesses (world.servicePids m0.currentService) world.procRead = .error e →
      loadProcessTreeMsg world m0 = Msg.error ("Failed to load processes: " ++ e)) := by
  refine ⟨fun _ _ _ => rfl, ?_, ?_⟩
  · intro world m0 e h
    simp [refreshLogsMsg, h]
  · intro world m0 e h
    simp [loadProcessTreeMsg, h]

/-- C15 (witness): the history load fails on a journal that rejects the filter; the forest
build fails for a service without processes; the error message leaves logs and forest of
the state alone. -/
theorem C15_error_sets_only_error_slot_witness :
    (GetRecentLogs brokenJournal modelATreeShown.currentService 100).1 =
        .error "failed to add match: add match" ∧
      refreshLogsMsg { scenarioWorld with journal := brokenJournal } modelATreeShown =
        Msg.error "Failed to read logs: failed to add match: add match" ∧
      GetServiceProcesses (scenarioWorld.servicePids modelB.currentService)
          scenarioWorld.procRead = .error "service not running or no processes found" ∧
      loadProcessTreeMsg scenarioWorld modelB =
        Msg.error "Failed to load processes: service not running or no processes found" ∧
      (Update idleWidgets modelATreeShown (Msg.error "Failed to read logs")).map
          (fun r => r.1.processes) = some scenarioForest :=
  have h1 : (GetRecentLogs brokenJournal modelATreeShown.currentService 100).1 =
      .error "failed to add match: add match" := by decide
  have h2 : GetServiceProcesses (scenarioWorld.servicePids modelB.currentService)
      scenarioWorld.procRead = .error "service not running or no processes found" := by
    decide
  ⟨h1, C15_error_sets_only_error_slot.2.1 { scenarioWorld with journal := brokenJournal }
      modelATreeShown _ h1,
    h2, C15_error_sets_only_error_slot.2.2 scenarioWorld modelB _ h2, by decide⟩

/-- C16 (the code at the failing input): the service directory delivers the full listing F
(one running and one failed service). Key `3` and the delivery of its result show the failed
service only; key `1` and the delivery of its result then show the failed service again and
not F, although the filter mode is `all`: the handler of `servicesLoadedMsg` stores every
delivered list, filtered or not, in `allServices`, the field that is to keep the unfiltered
list. Likewise `running` followed by `failed` shows nothing, whereas `failed` applied to F
is the failed service. The current service and the view mode stay as they were. -/
theorem C16_filtered_list_overwrites_full_listing :
    modelF.services = listingF ∧ modelF.allServices = listingF ∧
      (filterStep idleWidgets modelF "3").services = filterServices "failed" listingF ∧
      (filterStep idleWidgets modelF "3").allServices = filterServices "failed" listingF ∧
      (filterStep idleWidgets (filterStep idleWidgets modelF "3") "1").filterMode = "all" ∧
      (filterStep idleWidgets (filterStep idleWidgets modelF "3") "1").services =
        filterServices "failed" listingF ∧
      (filterStep idleWidgets (filterStep idleWidgets modelF "3") "1").serviceList.items =
        filterServices "failed" listingF ∧
      filterServices "all" listingF = listingF ∧
      (filterStep idleWidgets (filterStep idleWidgets modelF "3") "1").services ≠ listingF ∧
      (filterStep idleWidgets (filterStep idleWidgets modelF "2") "3").services = [] ∧
      filterServices "failed" listingF ≠ [] ∧
      (filterStep idleWidgets (filterStep idleWidgets modelF "3") "1").currentService =
        modelF.currentService ∧
      (filterStep idleWidgets (filterStep idleWidgets modelF "3") "1").showProcessTree =
        modelF.showProcessTree := by
  refine ⟨by decide, by decide, by decide, by decide, by decide, by decide, by decide,
    by decide, by decide, by decide, by decide, by decide, by decide⟩

/-- A filter key (`1`, `2`, `3`) followed by the delivery of its result: the displayed list
is the new mode applied to `allServices` as it was, and `allServices` itself becomes that
filtered list; the current service and the view mode are unchanged. -/
theorem filterStep_result (w : Widgets) (m : Model) (k mode : String)
    (hk : (k = "1" ∧ mode = "all") ∨ (k = "2" ∧ mode = "running") ∨
      (k = "3" ∧ mode = "failed")) :
    (filterStep w m k).filterMode = mode ∧
      (filterStep w m k).services = filterServices mode m.allServices ∧
      (filterStep w m k).serviceList.items = filterServices mode m.allServices ∧
      (filterStep w m k).allServices = filterServices mode m.allServices ∧
      (filterStep w m k).currentService = m.currentService ∧
      (filterStep w m k).showProcessTree = m.showProcessTree := by
  rcases hk with ⟨rfl, rfl⟩ | ⟨rfl, rfl⟩ | ⟨rfl, rfl⟩ <;>
    simp [filterStep, stateAfter, Update, updateKey, applyFilterMsg]

/-- The cycling filter key `f` followed by the delivery of its result changes neither the
current service nor the view mode. -/
theorem filterStep_cycle_frame (w : Widgets) (m : Model) :
    (filterStep w m "f").currentService = m.currentService ∧
      (filterStep w m "f").showProcessTree = m.showProcessTree := by
  simp only [filterStep, stateAfter, Update, updateKey, cycleFilter, applyFilterMsg]
  constructor <;> split <;> rfl

/-! ### Process forest: claim C19 -/

/-- Without any assumption on the pids: the address the map holds for a pid is an object
with that pid, and every pid of an object has an address in the map. -/
theorem firstPass_map_sound (read : Int → Option ProcStat) (pids : List Int) (s : BuildState)
    (h1 : ∀ k i, s.processMap k = some i → (s.heap[i]?).map (·.PID) = some k)
    (h2 : ∀ k, k ∈ s.heap.map (·.PID) → (s.processMap k).isSome = true) :
    (∀ k i, (firstPass read pids s).processMap k = some i →
      ((firstPass read pids s).heap[i]?).map (·.PID) = some k) ∧
    (∀ k, k ∈ (firstPass read pids s).heap.map (·.PID) →
      ((firstPass read pids s).processMap k).isSome = true) := by
  induction pids generalizing s with
  | nil => exact ⟨h1, h2⟩
  | cons pid rest ih =>
    cases h : read pid with
    | none =>
      simp only [firstPass, h]
      exact ih s h1 h2
    | some st =>
      simp only [firstPass, h]
      apply ih
      · intro k i hki
        by_cases hk : k = pid
        · subst hk
          simp only [if_true, Option.some.injEq] at hki
          subst hki
          simp [mkProcess]
        · simp only [if_neg hk] at hki
          have := h1 k i hki
          have hlt : i < s.heap.length := by
            by_contra hge
            rw [List.getElem?_eq_none (Nat.le_of_not_lt hge)] at this
            simp at this
          rw [List.getElem?_append_left hlt]
          exact this
      · intro k hk
        by_cases hkp : k = pid
        · simp [hkp]
        · simp only [if_neg hkp]
          apply h2
          simp only [List.map_append, List.map_cons, List.map_nil, List.mem_append,
            List.mem_singleton] at hk
          rcases hk with hk | hk
          · exact hk
          · exact absurd (by simpa [mkProcess] using hk) hkp

theorem firstPass_map_sound_init (read : Int → Option ProcStat) (pids : List Int) :
    (∀ k i, (firstPass read pids BuildState.init).processMap k = some i →
      ((records read pids)[i]?).map (·.PID) = some k) ∧
    (∀ k, k ∈ (records read pids).map (·.PID) →
      ((firstPass read pids BuildState.init).processMap k).isSome = true) := by
  have h := firstPass_map_sound read pids BuildState.init
    (by intro k i hki; simp [BuildState.init] at hki)
    (by intro k hk; simp [BuildState.init] at hk)
  rw [firstPass_heap_init] at h
  exact h

/-- C19: when at least one record was read and the parent-pid relation among the read
records is acyclic, the root-finding pass of `GetServiceProcesses` yields at least one root
and the forest returned is the one with these roots; so the fallback (zero roots with a
record read) is taken only when that relation has a cycle. A record whose parent pid is not
the pid of any read record, as when the parent's read failed, is always a root. -/
theorem C19_acyclic_records_have_a_root (pids : List Int) (read : Int → Option ProcStat) :
    (records read pids ≠ [] → Acyclic (records read pids) →
      rootsFound pids read ≠ [] ∧
      ∃ heap, GetServiceProcesses pids read =
        .ok { heap := heap, roots := rootsFound pids read }) ∧
    (records read pids ≠ [] → rootsFound pids read = [] → ¬ Acyclic (records read pids)) ∧
    (∀ (j : Nat) (r : Process), (records read pids)[j]? = some r →
      r.Parent ∉ (records read pids).map (·.PID) → j ∈ rootsFound pids read) := by
  obtain ⟨hlen, hroots, -⟩ := passes_result read pids
  obtain ⟨hs1, hs2⟩ := firstPass_map_sound_init read pids
  have hg := gsp_eq read pids
  have hR : rootsFound pids read = (List.range (records read pids).length).filter
      (isRootPtr (firstPass read pids BuildState.init).processMap (records read pids)) := hroots
  generalize hpm : (firstPass read pids BuildState.init).processMap = pm at *
  generalize hrecs : records read pids = recs at *
  have hpar : ∀ p i, parentOf pm recs p = some i → i < recs.length := by
    intro p i h
    unfold parentOf at h
    cases hp : recs[p]? with
    | none => simp [hp] at h
    | some rp =>
      rw [hp] at h
      have := hs1 _ _ h
      by_contra hge
      rw [List.getElem?_eq_none (Nat.le_of_not_lt hge)] at this
      simp at this
  have hrel : ∀ p i, parentOf pm recs p = some i → isParentOf recs p i = true := by
    intro p i h
    unfold parentOf at h
    unfold isParentOf
    cases hp : recs[p]? with
    | none => simp [hp] at h
    | some rp =>
      rw [hp] at h
      have := hs1 _ _ h
      cases hi : recs[i]? with
      | none => simp [hi] at this
      | some ri =>
        rw [hi] at this
        simp only [Option.map_some', Option.some.injEq] at this
        simp [this]
  have hkey : recs ≠ [] → Acyclic recs → rootsFound pids read ≠ [] := by
    intro hne hacyc hnil
    have hpos : 0 < recs.length := List.length_pos.mpr hne
    have hac : ∀ j d, 0 < d → anc (parentOf pm recs) d j ≠ some j := by
      intro j d hd h
      exact hacyc j (transGen_of_anc (parentOf pm recs) _ hrel d j j hd h)
    have hnone := anc_none_of_no_cycle (parentOf pm recs) recs.length hpar hac 0 hpos
    have hall : ∀ j, j < recs.length → ∃ i, parentOf pm recs j = some i := by
      intro j hj
      have hnot : isRootPtr pm recs j = false := by
        by_contra hroot
        have hmem : j ∈ rootsFound pids read := by
          rw [hR]
          exact List.mem_filter.mpr ⟨List.mem_range.mpr hj, by simpa using hroot⟩
        rw [hnil] at hmem
        simp at hmem
      simp only [isRootPtr, parentOf, List.getElem?_eq_getElem hj] at hnot ⊢
      cases hp : pm recs[j].Parent with
      | none => simp [hp] at hnot
      | some i => exact ⟨i, rfl⟩
    have hsome : ∀ d, ∃ c, c < recs.length ∧ anc (parentOf pm recs) d 0 = some c := by
      intro d
      induction d with
      | zero => exact ⟨0, hpos, rfl⟩
      | succ d ih =>
        obtain ⟨c, hc, hcd⟩ := ih
        obtain ⟨i, hi⟩ := hall c hc
        exact ⟨i, hpar c i hi, by simp [anc, hcd, hi]⟩
    obtain ⟨c, -, hc⟩ := hsome recs.length
    rw [hnone] at hc
    simp at hc
  refine ⟨?_, ?_, ?_⟩
  · intro hne hacyc
    have hr := hkey hne hacyc
    refine ⟨hr, ?_⟩
    have hpne : pids ≠ [] := by
      intro h; subst h; rw [← hrecs] at hne; simp [records] at hne
    exact ⟨_, by rw [hg hpne, if_neg (fun h => hr h.1)]⟩
  · intro hne hnil hacyc
    exact hkey hne hacyc hnil
  · intro j r hj hpar'
    rw [hR]
    have hjl : j < recs.length := by
      by_contra hge
      rw [List.getElem?_eq_none (Nat.le_of_not_lt hge)] at hj
      simp at hj
    apply List.mem_filter.mpr
    refine ⟨List.mem_range.mpr hjl, ?_⟩
    simp only [isRootPtr, hj]
    cases hp : pm r.Parent with
    | none => rfl
    | some i =>
      exfalso
      have h1 := hs1 _ _ hp
      cases hi : recs[i]? with
      | none => simp [hi] at h1
      | some ri =>
        rw [hi] at h1
        simp only [Option.map_some', Option.some.injEq] at h1
        exact hpar' (List.mem_map.mpr ⟨ri, List.getElem?_mem hi, h1⟩)

/-- C19 (witness): in the scenario the records are read and acyclic, and there is a root;
with two records naming each other as parent there is no root and the relation is cyclic. -/
theorem C19_acyclic_records_have_a_root_witness :
    records scenarioRead [100, 101, 102] ≠ [] ∧
      Acyclic (records scenarioRead [100, 101, 102]) ∧
      rootsFound [100, 101, 102] scenarioRead ≠ [] ∧
      records cycleRead [1, 2] ≠ [] ∧ rootsFound [1, 2] cycleRead = [] ∧
      ¬ Acyclic (records cycleRead [1, 2]) :=
  have h1 : records scenarioRead [100, 101, 102] ≠ [] := by decide
  have h2 : Acyclic (records scenarioRead [100, 101, 102]) :=
    acyclic_of_rank _ (fun i => i) (by decide)
  have h3 : records cycleRead [1, 2] ≠ [] := by decide
  have h4 : rootsFound [1, 2] cycleRead = [] := by decide
  ⟨h1, h2, ((C19_acyclic_records_have_a_root [100, 101, 102] scenarioRead).1 h1 h2).1,
    h3, h4, (C19_acyclic_records_have_a_root [1, 2] cycleRead).2.1 h3 h4⟩

/-! ### Process table reader: claims C17, C18 and C20 -/

theorem collectPIDs_eq (fs : ProcFS) (serviceName : String) (entries : List DirEntry)
    (pids : List Int) :
    collectPIDs fs serviceName ("system.slice/" ++ serviceName) entries pids =
      pids ++ entries.filterMap (memberPid fs serviceName) := by
  induction entries generalizing pids with
  | nil => simp [collectPIDs]
  | cons entry rest ih =>
    unfold collectPIDs
    cases hd : entry.IsDir with
    | false => simp [ih, memberPid, hd]
    | true =>
      cases ha : Atoi entry.Name with
      | none => simp [ih, memberPid, hd, ha]
      | some pid =>
        cases hc : fs.cgroup pid with
        | none => simp [ih, memberPid, hd, ha, hc]
        | some content =>
          by_cases hm : (Contains content ("system.slice/" ++ serviceName) ||
              Contains content serviceName) = true
          · simp [ih, memberPid, hd, ha, hc, hm]
          · simp [ih, memberPid, hd, ha, hc, hm]

/-- C17: for every service name and every process-table content, `getAllServicePIDs`
returns the reference result: in enumeration order, the pids of exactly the entries that are
directories with a numeric name and whose control-group content is readable and contains
`system.slice/<service>` or the bare service name. An entry whose control-group content
cannot be read contributes nothing, and the call never fails. For the sample table and
`web.service` the result is 10, 12. -/
theorem C17_service_pids_are_reference_pids :
    (∀ (fs : ProcFS) (serviceName : String),
      getAllServicePIDs fs serviceName = referencePIDs fs serviceName) ∧
    (∀ (fs : ProcFS) (serviceName : String) (entries : List DirEntry),
      fs.readDir = some entries →
      getAllServicePIDs fs serviceName =
        entries.filterMap (fun entry =>
          if entry.IsDir then
            (Atoi entry.Name).bind (fun pid =>
              (fs.cgroup pid).bind (fun content =>
                if Contains content ("system.slice/" ++ serviceName) ||
                    Contains content serviceName
                then some pid else none))
          else none)) ∧
    getAllServicePIDs sampleProcFS "web.service" = [10, 12] := by
  have h1 : ∀ (fs : ProcFS) (serviceName : String),
      getAllServicePIDs fs serviceName = referencePIDs fs serviceName := by
    intro fs serviceName
    unfold getAllServicePIDs referencePIDs
    cases fs.readDir with
    | none => rfl
    | some entries => simp [collectPIDs_eq]
  refine ⟨h1, ?_, by decide⟩
  intro fs serviceName entries hrd
  rw [h1, referencePIDs, hrd]
  apply List.filterMap_congr
  intro entry _
  unfold memberPid
  cases entry.IsDir with
  | false => simp
  | true =>
    cases Atoi entry.Name with
    | none => simp
    | some pid =>
      cases hcg : fs.cgroup pid <;> simp [hcg]

/-- C17 (witness): the sample process table. -/
theorem C17_service_pids_are_reference_pids_witness :
    sampleProcFS.readDir = some
        [ { Name := "1", IsDir := true }, { Name := "10", IsDir := true },
          { Name := "11", IsDir := true }, { Name := "12", IsDir := true },
          { Name := "13", IsDir := true }, { Name := "self", IsDir := true },
          { Name := "uptime", IsDir := false } ] ∧
      getAllServicePIDs sampleProcFS "db.service" = [13] :=
  have h : sampleProcFS.readDir = some
      [ { Name := "1", IsDir := true }, { Name := "10", IsDir := true },
        { Name := "11", IsDir := true }, { Name := "12", IsDir := true },
        { Name := "13", IsDir := true }, { Name := "self", IsDir := true },
        { Name := "uptime", IsDir := false } ] := rfl
  ⟨h, (C17_service_pids_are_reference_pids.2.1 sampleProcFS "db.service" _ h).trans
    (by decide)⟩

/-- Whenever the stat-line parse ends without a panic, `getProcessInfo` returns the record
with the command line of the argument vector (NUL replaced by a space, trimmed), or the
bracketed name exactly when that text is empty. -/
theorem getProcessInfo_cmdline (fs : ProcFS) (pid : Int) (cmdlineData statData name : String)
    (ppid : Int) (hc : fs.cmdline pid = some cmdlineData) (hs : fs.stat pid = some statData)
    (hp : parseStat statData = Outcome.ok (name, ppid)) :
    getProcessInfo fs pid = Outcome.ok (mkProcess pid
      { Name := name
        Cmdline := if cmdlineText cmdlineData = "" then "[" ++ name ++ "]"
                   else cmdlineText cmdlineData
        Parent := ppid }) := by
  simp [getProcessInfo, hc, hs, hp]

/-- The stat-line parse panics exactly when both parentheses occur and the last `)` stands
before the first `(`; in every other case it produces a name and a parent pid. -/
theorem parseStat_panic_iff (statStr : String) :
    (parseStat statStr = Outcome.panic "slice bounds out of range" ↔
      (Index statStr.toList '(' ≠ -1 ∧ LastIndex statStr.toList ')' ≠ -1 ∧
        LastIndex statStr.toList ')' < Index statStr.toList '(' + 1)) ∧
    (¬ (Index statStr.toList '(' ≠ -1 ∧ LastIndex statStr.toList ')' ≠ -1 ∧
        LastIndex statStr.toList ')' < Index statStr.toList '(' + 1) →
      ∃ name ppid, parseStat statStr = Outcome.ok (name, ppid)) := by
  unfold parseStat
  simp only
  by_cases h1 : Index statStr.toList '(' ≠ -1 ∧ LastIndex statStr.toList ')' ≠ -1
  · rw [if_pos h1]
    by_cases h2 : Index statStr.toList '(' + 1 > LastIndex statStr.toList ')'
    · rw [if_pos h2]
      exact ⟨⟨fun _ => ⟨h1.1, h1.2, h2⟩, fun _ => rfl⟩, fun h => absurd ⟨h1.1, h1.2, h2⟩ h⟩
    · rw [if_neg h2]
      refine ⟨⟨fun h => ?_, fun h => absurd h.2.2 h2⟩, fun _ => ⟨_, _, rfl⟩⟩
      exact Outcome.noConfusion h
  · rw [if_neg h1]
    refine ⟨⟨fun h => ?_, fun h => absurd ⟨h.1, h.2.1⟩ h1⟩, fun _ => ⟨_, _, rfl⟩⟩
    exact Outcome.noConfusion h

theorem findIdx?_append_cons (p : Char → Bool) (a : List Char) (c : Char) (t : List Char)
    (hc : p c = true) (s : Nat) :
    ∃ i, List.findIdx? p (a ++ c :: t) s = some i ∧ s ≤ i ∧ i ≤ s + a.length := by
  induction a generalizing s with
  | nil =>
    exact ⟨s, by rw [List.nil_append, List.findIdx?_cons, if_pos hc], Nat.le_refl _, by simp⟩
  | cons x a ih =>
    by_cases hx : p x = true
    · exact ⟨s, by rw [List.cons_append, List.findIdx?_cons, if_pos hx], Nat.le_refl _,
        by simp⟩
    · obtain ⟨i, h1, h2, h3⟩ := ih (s + 1)
      refine ⟨i, ?_, by omega, ?_⟩
      · rw [List.cons_append, List.findIdx?_cons, if_neg hx]
        exact h1
      · simp only [List.length_cons]
        omega

/-- The first `(` of a text `a ++ "(" ++ t` is found, at a position within `a` or right
after it. -/
theorem index_append_cons (a t : List Char) (c : Char) :
    0 ≤ Index (a ++ c :: t) c ∧ Index (a ++ c :: t) c ≤ (a.length : Int) := by
  obtain ⟨i, h1, -, h3⟩ := findIdx?_append_cons (fun x => x == c) a c t (by simp) 0
  have h : (a ++ c :: t).indexOf? c = some i := h1
  simp only [Index, h]
  constructor <;> omega

/-- The last `)` of a text `u ++ ")" ++ t` is found, at the position right after `u` or
later. -/
theorem lastIndex_append_cons (u t : List Char) (c : Char) :
    (u.length : Int) ≤ LastIndex (u ++ c :: t) c := by
  have hrev : (u ++ c :: t).reverse = t.reverse ++ c :: u.reverse := by simp
  obtain ⟨i, h1, -, h3⟩ :=
    findIdx?_append_cons (fun x => x == c) t.reverse c u.reverse (by simp) 0
  have h : (u ++ c :: t).reverse.indexOf? c = some i := by rw [hrev]; exact h1
  simp only [LastIndex, h, List.length_append, List.length_cons, List.length_reverse] at h3 ⊢
  push_cast
  omega

/-- On a stat line of the shape `PID (NAME) ...` the parse returns a name and a parent
pid. -/
theorem parseStat_statLine (statStr : String) (h : IsStatLine statStr) :
    ∃ name ppid, parseStat statStr = Outcome.ok (name, ppid) := by
  obtain ⟨a, b, c, habc⟩ := h
  apply (parseStat_panic_iff statStr).2
  rintro ⟨-, -, hlt⟩
  have h1 := (index_append_cons a (b ++ ')' :: c) '(').2
  have h2 := lastIndex_append_cons (a ++ '(' :: b) c ')'
  have e : a ++ '(' :: (b ++ ')' :: c) = (a ++ '(' :: b) ++ ')' :: c := by simp
  rw [habc] at hlt
  have h2' : ((a ++ '(' :: b).length : Int) ≤ LastIndex (a ++ '(' :: (b ++ ')' :: c)) ')' := by
    rw [e]; exact h2
  simp only [List.length_append, List.length_cons] at h2'
  push_cast at h2'
  omega

/-- C18: for every process whose argument vector and stat line are readable, the stat line
having the shape `PID (NAME) STATE PPID ...`, `getProcessInfo` returns a record whose name
and parent pid are those parsed out of the stat line and whose command line is the argument
vector with every NUL replaced by a space and the surrounding white space trimmed, or, exactly
when that text is empty, the name in brackets. -/
theorem C18_command_line_of_process (fs : ProcFS) (pid : Int) (cmdlineData statData : String)
    (hc : fs.cmdline pid = some cmdlineData) (hs : fs.stat pid = some statData)
    (hshape : IsStatLine statData) :
    ∃ name ppid, parseStat statData = Outcome.ok (name, ppid) ∧
      getProcessInfo fs pid = Outcome.ok
        { PID := pid, Name := name,
          Cmdline := if TrimSpace (replaceNul cmdlineData) = "" then "[" ++ name ++ "]"
                     else TrimSpace (replaceNul cmdlineData),
          Parent := ppid, Children := [] } := by
  obtain ⟨name, ppid, hp⟩ := parseStat_statLine statData hshape
  exact ⟨name, ppid, hp, getProcessInfo_cmdline fs pid cmdlineData statData name ppid hc hs hp⟩

/-- C18 (witness): process 42 with the argument vector `/usr/bin/foo -x` and the stat line
`42 (foo) S 1 42 42 0`; and a kernel thread with an empty argument vector. -/
theorem C18_command_line_of_process_witness :
    (oneProcess "" "/usr/bin/foo\x00-x\x00" "42 (foo) S 1 42 42 0").cmdline 42 =
        some "/usr/bin/foo\x00-x\x00" ∧
      (oneProcess "" "/usr/bin/foo\x00-x\x00" "42 (foo) S 1 42 42 0").stat 42 =
        some "42 (foo) S 1 42 42 0" ∧
      IsStatLine "42 (foo) S 1 42 42 0" ∧
      (∃ name ppid, parseStat "42 (foo) S 1 42 42 0" = Outcome.ok (name, ppid) ∧
        getProcessInfo (oneProcess "" "/usr/bin/foo\x00-x\x00" "42 (foo) S 1 42 42 0") 42 =
          Outcome.ok
            { PID := 42, Name := name,
              Cmdline := if TrimSpace (replaceNul "/usr/bin/foo\x00-x\x00") = ""
                         then "[" ++ name ++ "]"
                         else TrimSpace (replaceNul "/usr/bin/foo\x00-x\x00"),
              Parent := ppid, Children := [] }) ∧
      getProcessInfo (oneProcess "" "/usr/bin/foo\x00-x\x00" "42 (foo) S 1 42 42 0") 42 =
        Outcome.ok { PID := 42, Name := "foo", Cmdline := "/usr/bin/foo -x", Parent := 1,
                     Children := [] } ∧
      getProcessInfo (oneProcess "" "" "42 (kworker/0:1) I 2 0 0 0") 42 =
        Outcome.ok { PID := 42, Name := "kworker/0:1", Cmdline := "[kworker/0:1]", Parent := 2,
                     Children := [] } :=
  have h1 : (oneProcess "" "/usr/bin/foo\x00-x\x00" "42 (foo) S 1 42 42 0").cmdline 42 =
      some "/usr/bin/foo\x00-x\x00" := by decide
  have h2 : (oneProcess "" "/usr/bin/foo\x00-x\x00" "42 (foo) S 1 42 42 0").stat 42 =
      some "42 (foo) S 1 42 42 0" := by decide
  have h3 : IsStatLine "42 (foo) S 1 42 42 0" :=
    ⟨"42 ".toList, "foo".toList, " S 1 42 42 0".toList, by decide⟩
  ⟨h1, h2, h3, C18_command_line_of_process _ 42 _ _ h1 h2 h3, by decide, by decide⟩

theorem renderProcess_mono_le (heap : Heap) (d e : Nat) (p : Ptr) (l : List Ptr)
    (h : renderProcess heap d p = some l) (hde : d ≤ e) :
    renderProcess heap e p = some l := by
  induction e with
  | zero =>
    have : d = 0 := by omega
    subst this; exact h
  | succ e ih =>
    by_cases hd : d = e + 1
    · subst hd; exact h
    · exact renderProcess_mono heap e p l (ih (by omega))

theorem renderEach_none (f : Ptr → Option (List Ptr)) (ps : List Ptr)
    (h : renderEach f ps = none) : ∃ p ∈ ps, f p = none := by
  induction ps with
  | nil => simp [renderEach] at h
  | cons q rest ih =>
    cases hq : f q with
    | none => exact ⟨q, List.mem_cons_self _ _, hq⟩
    | some l =>
      cases hr : renderEach f rest with
      | none =>
        obtain ⟨p, hp, hfp⟩ := ih hr
        exact ⟨p, List.mem_cons_of_mem _ hp, hfp⟩
      | some more => simp [renderEach, hq, hr] at h

theorem renderProcess_valid (heap : Heap) (d : Nat) (p : Ptr) (l : List Ptr)
    (h : renderProcess heap d p = some l) : p < heap.length := by
  cases d with
  | zero => simp [renderProcess] at h
  | succ d =>
    simp only [renderProcess] at h
    by_contra hge
    rw [List.getElem?_eq_none (Nat.le_of_not_lt hge)] at h
    simp at h

theorem isRenderDepth_exists (heap : Heap) (d : Nat) (q : Ptr) (l : List Ptr)
    (h : renderProcess heap d q = some l) : ∃ r, r ≤ d ∧ IsRenderDepth heap q r := by
  induction d generalizing l with
  | zero => simp [renderProcess] at h
  | succ d ih =>
    cases hd : renderProcess heap d q with
    | none => exact ⟨d + 1, Nat.le_refl _, by simp [h], by simpa using hd⟩
    | some l' =>
      obtain ⟨r, hr, hrr⟩ := ih l' hd
      exact ⟨r, Nat.le_succ_of_le hr, hrr⟩

theorem isRenderDepth_unique (heap : Heap) (q : Ptr) (r r' : Nat)
    (h : IsRenderDepth heap q r) (h' : IsRenderDepth heap q r') : r = r' := by
  have key : ∀ a b, IsRenderDepth heap q a → IsRenderDepth heap q b → ¬ a < b := by
    intro a b ha hb hab
    obtain ⟨l, hl⟩ := Option.isSome_iff_exists.mp ha.1
    have := renderProcess_mono_le heap a (b - 1) q l hl (by omega)
    rw [hb.2] at this
    exact absurd this (by simp)
  have h1 := key r r' h h'
  have h2 := key r' r h' h
  omega

theorem isRenderDepth_pos (heap : Heap) (q : Ptr) (r : Nat) (h : IsRenderDepth heap q r) :
    1 ≤ r := by
  by_contra h0
  have : r = 0 := by omega
  subst this
  simp [IsRenderDepth, renderProcess] at h

/-- A call that needs nesting depth `r + 1`, `r` at least 1, has a child whose call needs
depth `r`. -/
theorem isRenderDepth_child (heap : Heap) (q : Ptr) (r : Nat) (hr : 1 ≤ r)
    (h : IsRenderDepth heap q (r + 1)) : ∃ c, IsRenderDepth heap c r := by
  obtain ⟨h1, h2⟩ := h
  obtain ⟨r', rfl⟩ : ∃ r', r = r' + 1 := ⟨r - 1, by omega⟩
  simp only [Nat.add_sub_cancel] at h2
  obtain ⟨l, hl⟩ := Option.isSome_iff_exists.mp h1
  simp only [renderProcess] at hl h2
  cases hp : heap[q]? with
  | none => simp [hp] at hl
  | some pr =>
    simp only [hp] at hl h2
    cases hc : renderEach (renderProcess heap (r' + 1)) pr.Children with
    | none =>
      simp only [renderProcess] at hc
      simp [hc] at hl
    | some printed =>
      cases hc2 : renderEach (renderProcess heap r') pr.Children with
      | some printed2 => simp [hc2] at h2
      | none =>
        obtain ⟨c, hcm, hcn⟩ := renderEach_none _ _ hc2
        obtain ⟨lc, hlc⟩ := renderEach_some _ _ _ hc c hcm
        exact ⟨c, by simp [hlc], by simpa using hcn⟩

theorem isRenderDepth_below (heap : Heap) (q : Ptr) (r : Nat) (h : IsRenderDepth heap q r)
    (k : Nat) (hk : k < r) : ∃ c, IsRenderDepth heap c (r - k) := by
  induction k with
  | zero => exact ⟨q, h⟩
  | succ k ih =>
    obtain ⟨c, hc⟩ := ih (by omega)
    have e : r - k = (r - (k + 1)) + 1 := by omega
    rw [e] at hc
    exact isRenderDepth_child heap c (r - (k + 1)) (by omega) hc

/-- The least nesting depth of a call that returns is at most the number of objects. -/
theorem isRenderDepth_le (heap : Heap) (q : Ptr) (r : Nat) (h : IsRenderDepth heap q r) :
    r ≤ heap.length := by
  have hex : ∀ s ∈ Finset.Icc 1 r, ∃ c, c < heap.length ∧ IsRenderDepth heap c s := by
    intro s hs
    have hs' := Finset.mem_Icc.mp hs
    obtain ⟨c, hc⟩ := isRenderDepth_below heap q r h (r - s) (by omega)
    have e : r - (r - s) = s := by omega
    rw [e] at hc
    obtain ⟨l, hl⟩ := Option.isSome_iff_exists.mp hc.1
    exact ⟨c, renderProcess_valid heap s c l hl, hc⟩
  classical
  let g : Nat → Nat := fun s =>
    if hs : s ∈ Finset.Icc 1 r then Classical.choose (hex s hs) else 0
  have hg : ∀ s (hs : s ∈ Finset.Icc 1 r),
      g s < heap.length ∧ IsRenderDepth heap (g s) s := by
    intro s hs
    have := Classical.choose_spec (hex s hs)
    simp only [g, hs, dif_pos]
    exact this
  have hcard := Finset.card_le_card_of_injOn g
    (fun s hs => Finset.mem_range.mpr (hg s hs).1)
    (by
      intro s hs t ht hst
      have h1 := (hg s hs).2
      have h2 := (hg t ht).2
      rw [hst] at h1
      exact isRenderDepth_unique heap (g t) s t h1 h2)
  simpa using hcard

/-- The nesting bound of `renderForest` is exact: a call of `renderProcess` that returns
within any nesting depth returns the same within the depth `heap.length`, so a call that
does not return within that depth returns within none. -/
theorem renderProcess_depth_enough (heap : Heap) (d : Nat) (p : Ptr) (l : List Ptr)
    (h : renderProcess heap d p = some l) : renderProcess heap heap.length p = some l := by
  obtain ⟨r, hrd, hr⟩ := isRenderDepth_exists heap d p l h
  obtain ⟨l', hl'⟩ := Option.isSome_iff_exists.mp hr.1
  have hsame := renderProcess_mono_le heap r d p l' hl' hrd
  rw [h] at hsame
  have hll : l' = l := (Option.some.inj hsame).symm
  subst hll
  exact renderProcess_mono_le heap r heap.length p l' hl' (isRenderDepth_le heap p r hr)

/-- The same for the loop over the roots: a forest that can be rendered within any nesting
depth is rendered by `renderForest`, with the same result. -/
theorem renderForest_depth_enough (processes : Forest) (d : Nat) (l : List Ptr)
    (h : renderEach (renderProcess processes.heap d) processes.roots = some l) :
    renderForest processes = some l := by
  unfold renderForest
  rw [← h]
  apply renderEach_congr
  intro p hp
  obtain ⟨lp, hlp⟩ := renderEach_some _ _ _ h p hp
  rw [hlp]
  exact renderProcess_depth_enough processes.heap d p lp hlp

/-- On the forest the fallback of `GetServiceProcesses` returns for two records that name
each other as parent, the rendering does not return, whatever nesting depth is allowed, and
so `Update` does not return on the message that carries it. -/
theorem render_cyclic_forest_never_returns :
    GetServiceProcesses [1, 2] cycleRead = .ok cyclicForest ∧
      (∀ d, renderEach (renderProcess cyclicForest.heap d) cyclicForest.roots = none) ∧
      Update idleWidgets modelB (Msg.processesLoaded cyclicForest) = none := by
  refine ⟨by decide, ?_, rfl⟩
  intro d
  cases h : renderEach (renderProcess cyclicForest.heap d) cyclicForest.roots with
  | none => rfl
  | some printed =>
    exfalso
    obtain ⟨l, hl⟩ := renderEach_some _ _ _ h 0 (by decide)
    have := renderProcess_depth_enough cyclicForest.heap d 0 l hl
    have hnone : renderProcess cyclicForest.heap cyclicForest.heap.length 0 = none := by decide
    rw [hnone] at this
    exact absurd this (by simp)

end Sdtop
